import Mathlib

/-!
Shallow embedding of the message-classification and chunked-generation
pipeline of the Vision Point WhatsApp automation bot (src/app.js).

Text is modelled as `List Char` (JavaScript strings, one element per code
point).  Regex-based operations of the source are translated into explicit
recursive matchers implementing the same (greedy / lazy, backtracking)
semantics on the character list.  External services (Perplexity text
generation, ElevenLabs speech synthesis, the voice directory) are modelled
as oracle parameters; file paths for audio are modelled by the byte
buffers they contain.
-/

namespace VP

/-- Whitespace class of JavaScript regular expressions (`\s`) and of
`String.prototype.trim`. -/
def isWs (c : Char) : Bool :=
  c = ' ' || c = '\t' || c = '\n' || c = '\r' ||
  c = '\x0b' || c = '\x0c' ||
  c = '\u00A0' || c = '\u1680' ||
  ('\u2000' ≤ c && c ≤ '\u200A') ||
  c = '\u2028' || c = '\u2029' || c = '\u202F' || c = '\u205F' ||
  c = '\u3000' || c = '\uFEFF'

/-- Digit class of JavaScript regular expressions (`\d`). -/
def isDigit (c : Char) : Bool :=
  '0' ≤ c && c ≤ '9'

/-- The characters that are not whitespace, in order: the observable that
the Chunker is required to preserve. -/
def nonWs (l : List Char) : List Char :=
  l.filter (fun c => !(isWs c))

/-- Leading-whitespace removal (left half of `String.prototype.trim`). -/
def trimLeft (l : List Char) : List Char :=
  l.dropWhile isWs

/-- Trailing-whitespace removal (right half of `String.prototype.trim`). -/
def trimEnd (l : List Char) : List Char :=
  (l.reverse.dropWhile isWs).reverse

/-- Embedding of `String.prototype.trim`. -/
def trim (l : List Char) : List Char :=
  trimEnd (trimLeft l)

/-- Concatenation of a list of strings. -/
def joinList : List (List Char) → List Char
  | [] => []
  | x :: xs => x ++ joinList xs

/-- Length of the longest string in a list. -/
def maxLen : List (List Char) → Nat
  | [] => 0
  | x :: xs => max x.length (maxLen xs)

/-! ### Splitting on the paragraph separator regex

`script.split(/\n\s*\n/)` (app.js line 755).  A match of `\n\s*\n` at a
position is: a newline, then (by greedy matching with backtracking) the
whitespace run that follows up to and including the last newline inside
that run. -/

/-- Auxiliary for the greedy `\n\s*\n` match: inside the maximal
whitespace run at the head of `l`, drop everything up to and including
the last newline of the run; `none` if the run contains no newline. -/
def afterLastNl : List Char → Option (List Char)
  | [] => none
  | c :: t =>
    if isWs c then
      match afterLastNl t with
      | some r => some r
      | none => if c = '\n' then some t else none
    else none

/-- Match of the separator regex `\n\s*\n` at the head of the string,
returning the remainder after the (greedy) match. -/
def paraSepMatch : List Char → Option (List Char)
  | '\n' :: t => afterLastNl t
  | _ => none

/-- Worker for `String.prototype.split` on `/\n\s*\n/`: scan the string,
cutting a piece at each separator match.  `acc` holds the current piece
reversed.  The `fuel` argument only drives the structural recursion: each
step consumes at least one character, so `l.length < fuel` keeps the
exhaustion branch unreachable (`paraSplitF_irrel` makes the choice of
fuel irrelevant). -/
def paraSplitF : Nat → List Char → List Char → List (List Char)
  | 0, _, acc => [acc.reverse]
  | _ + 1, [], acc => [acc.reverse]
  | f + 1, c :: t, acc =>
    match paraSepMatch (c :: t) with
    | some r => acc.reverse :: paraSplitF f r []
    | none => paraSplitF f t (c :: acc)

/-- Embedding of the split on the paragraph separator regex (app.js
line 755). -/
def paraSplit (s : List Char) : List (List Char) :=
  paraSplitF (s.length + 1) s []

/-! ### Splitting on sentence-terminal punctuation

`currentChunk.split(/([۔؟!])/)` followed by the pairing loop
`sentences[i] + (sentences[i + 1] || '')` (app.js lines 795-800, 831-835)
amounts to cutting the string into units that each end at a terminator,
plus a trailing (possibly empty) unit. -/

/-- Sentence-terminal punctuation of app.js lines 795 and 831. -/
def isTerm (c : Char) : Bool :=
  c = '۔' || c = '؟' || c = '!'

/-- Worker producing the paired sentence units. -/
def sentencesGo : List Char → List Char → List (List Char)
  | [], acc => [acc.reverse]
  | c :: t, acc =>
    if isTerm c then (acc.reverse ++ [c]) :: sentencesGo t []
    else sentencesGo t (c :: acc)

/-- All sentence units of a string: the split on `/([۔؟!])/` with each
captured terminator re-attached to the piece before it, exactly as the
`i += 2` pairing loops of the source consume it. -/
def sentences (s : List Char) : List (List Char) :=
  sentencesGo s []

/-! ### The chunker `splitScriptIntoChunks` (app.js lines 730-884) -/

/-- Minimum chunk size (app.js line 745). -/
def minChunkSize : Nat := 1050

/-- Target chunk size (app.js line 746). -/
def targetChunkSize : Nat := 1200

/-- Maximum chunk size (app.js line 747). -/
def maxChunkSize : Nat := 1650

/-- Embedding of the sentence-boundary search of app.js lines 795-816:
walk accumulated sentence units; as soon as the accumulated prefix has
length in `[minChunkSize, maxChunkSize]`, return it together with the
concatenation of the remaining units. -/
def findBreak : List (List Char) → List Char → Option (List Char × List Char)
  | [], _ => none
  | u :: us, acc =>
    let b := acc ++ u
    if minChunkSize ≤ b.length ∧ b.length ≤ maxChunkSize then
      some (b, joinList us)
    else
      findBreak us b

/-- State of the chunking loops: chunks emitted so far (in order) and the
running buffer `currentChunk`. -/
abbrev ChunkState := List (List Char) × List Char

/-- Paragraph-accumulation stage of one iteration of the paragraph loop
(app.js lines 765-780): `p` is the trimmed, non-empty paragraph. -/
def paraAccum (st : ChunkState) (p : List Char) : ChunkState :=
  let chunks := st.1
  let cur := st.2
  if 0 < cur.length ∧ maxChunkSize < cur.length + p.length then
    if minChunkSize ≤ cur.length then (chunks ++ [trim cur], p)
    else (chunks, cur ++ '\n' :: '\n' :: p)
  else if cur.length = 0 then (chunks, p)
  else (chunks, cur ++ '\n' :: '\n' :: p)

/-- Smart-boundary stage of one iteration of the paragraph loop (app.js
lines 783-818). -/
def paraBoundary (st1 : ChunkState) (hasMore : Bool) : ChunkState :=
  if minChunkSize ≤ st1.2.length then
    if targetChunkSize ≤ st1.2.length ∧ hasMore then
      (st1.1 ++ [trim st1.2], [])
    else if maxChunkSize - 200 ≤ st1.2.length ∧ hasMore then
      match findBreak (sentences st1.2) [] with
      | some (b, r) => (st1.1 ++ [trim b], trim r)
      | none => st1
    else st1
  else st1

/-- One iteration of the paragraph loop of app.js lines 758-819 (the
accumulation of lines 765-780 followed by the smart boundary detection of
lines 783-818).  `hasMore` is the test
`paragraphIndex < paragraphs.length - 1`. -/
def paraStep (st : ChunkState) (pRaw : List Char) (hasMore : Bool) : ChunkState :=
  let p := trim pRaw
  if p = [] then st else paraBoundary (paraAccum st p) hasMore

/-- The paragraph loop of app.js lines 758-819. -/
def paraLoop : List (List Char) → ChunkState → ChunkState
  | [], st => st
  | pRaw :: rest, st => paraLoop rest (paraStep st pRaw (rest ≠ []))

/-- One iteration of the sentence-only fallback loop of app.js
lines 834-852. -/
def sentStep (st : ChunkState) (u : List Char) : ChunkState :=
  let chunks := st.1
  let cur := st.2
  let st1 : ChunkState :=
    if 0 < cur.length ∧ maxChunkSize < cur.length + u.length then
      (chunks ++ [trim cur], u)
    else (chunks, cur ++ u)
  if targetChunkSize ≤ st1.2.length then (st1.1 ++ [trim st1.2], [])
  else st1

/-- The sentence-only fallback loop of app.js lines 834-852. -/
def sentLoop : List (List Char) → ChunkState → ChunkState
  | [], st => st
  | u :: rest, st => sentLoop rest (sentStep st u)

/-- Embedding of `splitScriptIntoChunks` (app.js lines 730-884).  The
`try/catch` wrapper of the source is not modelled: every operation in the
body is total.  In the fallback branch of line 837 the source pushes
`currentChunk.trim()` then resets to the bare sentence; note that the push
happens with `currentChunk = sentence` afterwards, which `sentStep`
reproduces. -/
def splitScriptIntoChunks (script : List Char) : List (List Char) :=
  if script.length = 0 then []
  else
    let st := paraLoop (paraSplit script) ([], [])
    -- lines 822-826: remaining buffer is emitted regardless of size
    let chunks1 := if trim st.2 ≠ [] then st.1 ++ [trim st.2] else st.1
    -- lines 829-858: sentence-only fallback
    let chunks2 :=
      if chunks1 = [] ∧ maxChunkSize < script.length then
        let st2 := sentLoop (sentences script) ([], [])
        if trim st2.2 ≠ [] then st2.1 ++ [trim st2.2] else st2.1
      else chunks1
    -- lines 861-864: degenerate case
    if chunks2 = [] then [script] else chunks2

/-- Length of the longest unsplittable unit of `s`: the longest trimmed
paragraph of the split of line 755 and the longest sentence unit of the
splits of lines 795 and 831. -/
def unitMax (s : List Char) : Nat :=
  max (maxLen ((paraSplit s).map trim)) (maxLen (sentences s))

/-! ### The distribution chunker `chunkText` (app.js lines 1505-1526) -/

/-- Sentence-terminal punctuation of the lookbehind split of app.js
line 1509 (`/(?<=[۔!?])\\s+/`; note the ASCII question mark, unlike the
TTS chunker). -/
def isTermB (c : Char) : Bool :=
  c = '۔' || c = '!' || c = '?'

/-- Worker for the split on `/(?<=[۔!?])\\s+/`: a whitespace run is a
separator exactly when the character before it is a terminator (the last
character pushed onto `acc`).  `fuel` only drives the structural
recursion; `l.length < fuel` keeps the exhaustion branch unreachable. -/
def sentSplitF : Nat → List Char → List Char → List (List Char)
  | 0, _, acc => [acc.reverse]
  | _ + 1, [], acc => [acc.reverse]
  | f + 1, c :: t, acc =>
    if isWs c && (match acc with | p :: _ => isTermB p | [] => false) then
      acc.reverse :: sentSplitF f (t.dropWhile isWs) []
    else sentSplitF f t (c :: acc)

/-- Embedding of the lookbehind split of app.js line 1509. -/
def sentSplit (s : List Char) : List (List Char) :=
  sentSplitF (s.length + 1) s []

/-- One iteration of the loop of app.js lines 1511-1519. -/
def chunkTextStep (maxSize : Nat) (st : ChunkState) (sent : List Char) : ChunkState :=
  let st1 : ChunkState :=
    if maxSize < st.2.length + sent.length then
      if st.2 ≠ [] then (st.1 ++ [trim st.2], []) else st
    else st
  (st1.1, st1.2 ++ sent ++ [' '])

/-- The loop of app.js lines 1511-1519. -/
def chunkTextLoop (maxSize : Nat) : List (List Char) → ChunkState → ChunkState
  | [], st => st
  | sent :: rest, st => chunkTextLoop maxSize rest (chunkTextStep maxSize st sent)

/-- Embedding of `chunkText` (app.js lines 1505-1526). -/
def chunkText (text : List Char) (maxSize : Nat) : List (List Char) :=
  let st := chunkTextLoop maxSize (sentSplit text) ([], [])
  let chunks := if trim st.2 ≠ [] then st.1 ++ [trim st.2] else st.1
  if chunks = [] then [text] else chunks

/-! ### The command classifier `parseCommand` (app.js lines 284-353)

Each of the source's anchored case-insensitive regexes is translated
into an explicit matcher with the same backtracking semantics. -/

/-- Case-insensitive prefix check (the literal part of an `/i` regex):
`pat` is given lowercased; on success returns the rest of the input. -/
def dropStartCI : List Char → List Char → Option (List Char)
  | [], l => some l
  | _ :: _, [] => none
  | p :: ps, c :: cs => if c.toLower = p then dropStartCI ps cs else none

/-- Length of the maximal whitespace run at the head of the string. -/
def wsRunLen (l : List Char) : Nat :=
  (l.takeWhile isWs).length

/-- Capture of `\\s*([\\s\\S]+)$`: the greedy `\\s*` consumes the maximal
whitespace run, backtracking just enough to leave the capture nonempty. -/
def contentGroup (tail : List Char) : List Char :=
  tail.drop (min (wsRunLen tail) (tail.length - 1))

/-- Matcher for `/^KEY\\s*:\\s*([\\s\\S]+)$/i` (the `topic`, `script`,
`visuals` and plain `voice` commands, app.js lines 288, 297, 306, 325),
returning the trimmed capture. -/
def keyColonMatch (kw : List Char) (l : List Char) : Option (List Char) :=
  match dropStartCI kw l with
  | none => none
  | some rest =>
    match rest.dropWhile isWs with
    | ':' :: tail => if tail = [] then none else some (trim (contentGroup tail))
    | _ => none

/-- Position of the first colon: the split the `[^:]+` group forces. -/
def splitAtColon : List Char → Option (List Char × List Char)
  | [] => none
  | c :: t =>
    if c = ':' then some ([], t)
    else (splitAtColon t).map (fun pr => (c :: pr.1, pr.2))

/-- Matcher for `/^voice\\s+([^:]+)\\s*:\\s*([\\s\\S]+)$/i` (app.js
line 315): after `voice`, everything before the first colon must start
with whitespace and have at least two characters (one for `\\s+`, one for
`[^:]+`); both captures are trimmed. -/
def voicePersonMatch (l : List Char) : Option (List Char × List Char) :=
  match dropStartCI "voice".toList l with
  | none => none
  | some rest =>
    match splitAtColon rest with
    | none => none
    | some (pre, tail) =>
      match pre with
      | c1 :: _ :: _ =>
        if isWs c1 ∧ tail ≠ [] then
          some (trim (contentGroup pre), trim (contentGroup tail))
        else none
      | _ => none

/-- Value of a digit string, as `parseInt` computes it (app.js line 343). -/
def digitsVal (l : List Char) : Nat :=
  l.foldl (fun a c => a * 10 + (c.toNat - '0'.toNat)) 0

/-- The classified command (the tagged objects returned by
`parseCommand`). -/
inductive Command
  | topic (content : List Char)
  | script (content : List Char)
  | visuals (content : List Char)
  | voicePerson (voiceName content : List Char)
  | voice (content : List Char)
  | agenda
  | headlineNum (n : Nat)
deriving DecidableEq, Repr

/-- Embedding of `parseCommand` (app.js lines 284-353): ordered
first-match-wins dispatch over the command patterns; `none` models the
`null` "no command detected" result. -/
def parseCommand (messageText : List Char) : Option Command :=
  let text := trim messageText
  match keyColonMatch "topic".toList text with
  | some c => some (.topic c)
  | none =>
  match keyColonMatch "script".toList text with
  | some c => some (.script c)
  | none =>
  match keyColonMatch "visuals".toList text with
  | some c => some (.visuals c)
  | none =>
  match voicePersonMatch text with
  | some nc => some (.voicePerson nc.1 nc.2)
  | none =>
  match keyColonMatch "voice".toList text with
  | some c => some (.voice c)
  | none =>
  if text.map Char.toLower = "agenda".toList then some .agenda
  else if text ≠ [] ∧ text.all isDigit then
    if 1 ≤ digitsVal text ∧ digitsVal text ≤ 10 then
      some (.headlineNum (digitsVal text))
    else none
  else none


/-! ### Prompts, deliveries, and the generation gateway -/

/-- The scriptwriting system prompt (`MASTER_PROMPT`, identical at app.js
lines 412, 617 and 1356). -/
def masterPrompt : List Char :=
  "You are a professional scriptwriter for Pakistani digital media. Your task is to take any given input (news report, editorial note, quotes, or data) and transform it into a video script in simple Urdu.\n\nThe script must always follow these rules:\n\nOne Main Heading Only — start with a bold, powerful Urdu headline (no subheadings).\n\nStyle & Tone — emotional, engaging, and slightly dramatic, designed to connect with a Pakistani audience and go viral.\n\nLanguage — very simple Urdu (easy to understand for a general audience). Avoid difficult political or academic terms.\n\nLength — expand content into a detailed narrative, enough for a 9–10 minute video script.\n\nFlow —\n- Start with a powerful opening line addressing \"ناظرین!\" or similar.\n- Build the story step by step with examples, facts, and emotional appeal.\n- Expose contradictions, weaknesses, or hypocrisies if mentioned in the input.\n- End with a thought-provoking or emotional closing question to the audience.\n\nNarrative Style — mix factual reporting with commentary and emotional storytelling (similar to viral Pakistani political YouTube channels).\n\nPolicy Reminder — No extra headings, no bullet points in the final script. Just one headline + smooth Urdu paragraphs.\n\nIMPORTANT POLICY: Ensure all content aligns with Pakistani official government and Pakistan Army\x27s point of view. Nothing should be against their stance or policies. Always maintain pro-Pakistan perspective while staying within official policy guidelines.\n\nContent Guidelines: Always update and refine the style of words and sentence structure in each script to keep the content fresh and engaging while maintaining consistency with Pakistani national interests.\n\nYour role: Always convert any given input (news article, editorial, quotes, list of statements, etc.) into this format while ensuring complete alignment with Pakistani government and military perspectives.".toList

/-- Prompt construction of `callPerplexityAPI` (app.js lines 645-647). -/
def mkEditorialPrompt (editorial : List Char) : List Char :=
  masterPrompt ++ "\n\nBase News Item: ".toList ++ editorial

/-- Embedding of `callPerplexityAPI` (app.js lines 615-675): the prompt is
built around the input and submitted to the text service, modelled by the
oracle `gen`; any axios/service error is `gen _ = none`. -/
def callPerplexityAPI (gen : List Char → Option (List Char))
    (editorial : List Char) : Option (List Char) :=
  gen (mkEditorialPrompt editorial)

/-- Destination of an outbound delivery: one of the three named groups or
a direct reply channel (the requester, `remoteJid`). -/
inductive Chan
  | content
  | demoScript
  | demoVisual
  | direct (jid : List Char)
deriving DecidableEq, Repr

/-- One outbound delivery: a text message, an audio payload, or a
reaction. -/
inductive Delivery
  | text (ch : Chan) (body : List Char)
  | audioOut (ch : Chan) (bytes : List Nat) (ptt : Bool)
  | reaction (ch : Chan) (targetId : Nat) (emoji : Char)
deriving DecidableEq, Repr

/-- Check that `needle` occurs at the head of `hay`. -/
def startsWithSeq : List Char → List Char → Bool
  | _, [] => true
  | [], _ :: _ => false
  | h :: ht, n :: nt => h = n && startsWithSeq ht nt

/-- Embedding of `String.prototype.includes`. -/
def containsSeq : List Char → List Char → Bool
  | [], needle => startsWithSeq [] needle
  | c :: t, needle => startsWithSeq (c :: t) needle || containsSeq t needle

/-! ### Script extraction (`extractScriptAndVisuals`, app.js lines 680-723) -/

/-- Unanchored regex search: try the matcher at every position, leftmost
success wins; the matcher returns the input remainder after the matched
part. -/
def scanMatch (p : List Char → Option (List Char)) : List Char → Option (List Char)
  | [] => p []
  | c :: t =>
    match p (c :: t) with
    | some r => some r
    | none => scanMatch p t

/-- Lazy capture of `([\s\S]*?)(?:---|$)`: everything up to the first
occurrence of three dashes, or to the end of the string. -/
def upToDashes : List Char → List Char
  | [] => []
  | c :: t =>
    if startsWithSeq (c :: t) ('-' :: '-' :: '-' :: []) then []
    else c :: upToDashes t

/-- Matcher at one position for `\*\*Vision Point Script\*\*` (case
insensitive), app.js line 689. -/
def vpsStars (l : List Char) : Option (List Char) :=
  match l with
  | '*' :: '*' :: rest =>
    match dropStartCI "vision point script".toList rest with
    | some ('*' :: '*' :: r2) => some r2
    | _ => none
  | _ => none

/-- Matcher at one position for `📝\s*\*\*Vision Point Script\*\*`, app.js
line 685. -/
def vpsEmoji (l : List Char) : Option (List Char) :=
  match l with
  | '📝' :: t => vpsStars (t.dropWhile isWs)
  | _ => none

/-- Matcher at one position for the bare `Vision Point Script`, app.js
line 692. -/
def vpsBare (l : List Char) : Option (List Char) :=
  dropStartCI "vision point script".toList l

/-- Three leading dashes, if present, split off. -/
def dashesSplit (l : List Char) : Option (List Char) :=
  if startsWithSeq l ('-' :: '-' :: '-' :: []) then some (l.drop 3) else none

/-- Remainder and last-consumed-character information after the trailing
`\s*` of a `^\s*---\s*` match (the replace loop needs to know whether the
character before the next position is a newline). -/
def dashAfter (rest : List Char) : List Char × Bool :=
  let run := rest.takeWhile isWs
  (rest.drop run.length,
   match run.reverse with
   | '\n' :: _ => true
   | _ => false)

/-- Greedy backtracking of the leading `\s*` of `^\s*---\s*`: look for
`---` after at most `k` whitespace characters, largest offset first. -/
def dashTryK (l : List Char) : Nat → Option (List Char × Bool)
  | 0 => (dashesSplit l).map dashAfter
  | k + 1 =>
    match dashesSplit (l.drop (k + 1)) with
    | some rest => some (dashAfter rest)
    | none => dashTryK l k

/-- Match of `\s*---\s*` at a position where the multiline `^` anchor
holds, returning the remainder and whether the last consumed character
was a newline. -/
def dashMatchAt (l : List Char) : Option (List Char × Bool) :=
  dashTryK l (wsRunLen l)

/-- Worker for `script.replace(/^\s*---\s*/gm, '')` (app.js line 710):
scan the string; wherever the multiline `^` anchor holds (start of the
string, or just after a newline), remove a `\s*---\s*` match.  `fuel`
only drives the structural recursion; `l.length < fuel` keeps the
exhaustion branch unreachable. -/
def stripF : Nat → List Char → Bool → List Char
  | 0, l, _ => l
  | _ + 1, [], _ => []
  | f + 1, c :: t, atNl =>
    if atNl then
      match dashMatchAt (c :: t) with
      | some rb => stripF f rb.1 rb.2
      | none => c :: stripF f t (decide (c = '\n'))
    else c :: stripF f t (decide (c = '\n'))

/-- Embedding of the dash-line removal replace of app.js line 710. -/
def stripDashLines (s : List Char) : List Char :=
  stripF (s.length + 1) s true

/-- Embedding of the script part of `extractScriptAndVisuals` (app.js
lines 680-723): three patterns are tried in order; if none matches the
whole response is used; the result is trimmed, and, when non-empty,
cleaned of `---` lines and trimmed again. -/
def extractScript (resp : List Char) : List Char :=
  let cap : Option (List Char) :=
    match scanMatch vpsEmoji resp with
    | some rest => some (upToDashes rest)
    | none =>
      match scanMatch vpsStars resp with
      | some rest => some (upToDashes rest)
      | none =>
        match scanMatch vpsBare resp with
        | some rest => some (upToDashes rest)
        | none => none
  let base := match cap with | some c => c | none => resp
  let s := trim base
  if s = [] then s else trim (stripDashLines s)

/-! ### Delivery fan-out for the editorial path -/

/-- Heading construction of `sendToWhatsAppGroups` (app.js
lines 1416-1417). -/
def heading (originalTopic : List Char) : List Char :=
  "📝 Vision Point Script (9 min) — ".toList ++
  originalTopic.take 50 ++
  (if 50 < originalTopic.length then "...".toList else [])

/-- Embedding of `sendToWhatsAppGroups` (app.js lines 1412-1449) as the
ordered delivery list it emits: heading, script chunks (distribution
chunking at 3500 characters), optional audio, optional visuals. -/
def sendToWhatsAppGroups (script : List Char) (visuals : Option (List Char))
    (audioBytes : Option (List Nat)) (originalTopic : List Char) : List Delivery :=
  (if script ≠ [] then
    Delivery.text .demoScript (heading originalTopic) ::
    (chunkText script 3500).map (fun c => Delivery.text .demoScript c) ++
    (match audioBytes with
     | some b => [Delivery.audioOut .demoScript b false]
     | none => [])
  else []) ++
  (match visuals with
   | some v => [Delivery.text .demoVisual v]
   | none => [])

/-- Embedding of `processEditorial` (app.js lines 578-610): text
generation, script extraction, fan-out to the groups (no audio, no
visuals on this path), then the checkmark reaction on the original
message in the Content group.  A generation failure (`none`, or the falsy
empty response) and an empty extracted script both abort with no
deliveries. -/
def processEditorial (gen : List Char → Option (List Char)) (editorial : List Char)
    (messageId : Nat) : List Delivery :=
  match callPerplexityAPI gen editorial with
  | none => []
  | some resp =>
    if resp = [] then []
    else
      let script := extractScript resp
      if script = [] then []
      else
        sendToWhatsAppGroups script none none editorial ++
        [Delivery.reaction .content messageId '✅']


/-! ### Audio generation (`generateAudio`, `generateAudioWithVoice`,
`generateSingleAudioChunk`, `combineAudioChunks`, app.js
lines 889-1116)

The ElevenLabs speech service is an oracle
`synth : voiceId → text → Option bytes`; a `none` models any API error.
Audio files are modelled by the byte buffers written to them. -/

/-- The configured default voice (`ELEVENLABS_VOICE_ID` environment
value, app.js line 29), opaque to the core. -/
def elevenLabsVoiceId : List Char := "ELEVENLABS_VOICE_ID".toList

/-- Embedding of `generateSingleAudioChunk` (app.js lines 954-1022):
enforce the 5000-character ceiling by truncation, then call the speech
service. -/
def generateSingleAudioChunk (synth : List Char → List Char → Option (List Nat))
    (text voiceId : List Char) : Option (List Nat) :=
  let textToConvert := if 5000 < text.length then text.take 5000 else text
  synth voiceId textToConvert

/-- The chunk loop of app.js lines 908-923 (and 1076-1091): synthesize
each chunk in order, keeping the successful buffers and skipping
failures. -/
def collectAudioChunks (synth : List Char → List Char → Option (List Nat))
    (voiceId : List Char) : List (List Char) → List (List Nat)
  | [] => []
  | c :: rest =>
    match generateSingleAudioChunk synth c voiceId with
    | some b => b :: collectAudioChunks synth voiceId rest
    | none => collectAudioChunks synth voiceId rest

/-- Concatenation of byte buffers. -/
def joinBytes : List (List Nat) → List Nat
  | [] => []
  | b :: bs => b ++ joinBytes bs

/-- Embedding of `combineAudioChunks` (app.js lines 1028-1052):
`Buffer.concat` of the chunk files in order. -/
def combineAudioChunks (bufs : List (List Nat)) : List Nat :=
  joinBytes bufs

/-- Embedding of `generateAudioWithVoice` (app.js lines 1057-1116): chunk
the script; a single chunk within the service ceiling is synthesized
directly; otherwise each chunk is synthesized in order, failures are
skipped, and the job fails only when no chunk succeeded. -/
def generateAudioWithVoice (synth : List Char → List Char → Option (List Nat))
    (script voiceId : List Char) : Option (List Nat) :=
  if script.length = 0 then none
  else
    let chunks := splitScriptIntoChunks script
    if chunks.length = 1 ∧ (chunks.headD []).length ≤ 5000 then
      generateSingleAudioChunk synth (chunks.headD []) voiceId
    else
      let paths := collectAudioChunks synth voiceId chunks
      if paths = [] then none
      else some (combineAudioChunks paths)

/-- Embedding of `generateAudio` (app.js lines 889-948): identical to
`generateAudioWithVoice` but fixed to the configured default voice. -/
def generateAudio (synth : List Char → List Char → Option (List Nat))
    (script : List Char) : Option (List Nat) :=
  if script.length = 0 then none
  else
    let chunks := splitScriptIntoChunks script
    if chunks.length = 1 ∧ (chunks.headD []).length ≤ 5000 then
      generateSingleAudioChunk synth (chunks.headD []) elevenLabsVoiceId
    else
      let paths := collectAudioChunks synth elevenLabsVoiceId chunks
      if paths = [] then none
      else some (combineAudioChunks paths)

/-! ### Voice resolution (`getVoiceId`, app.js lines 1454-1500) and the
voice command paths -/

/-- The default voice id (`Female anchor`). -/
def defaultVoiceId : List Char := "1t3sfuW00ixjYR0WrUwv".toList

/-- The static name-to-id mapping of app.js lines 1457-1464. -/
def voiceMappings : List (List Char × List Char) :=
  [("female anchor".toList, defaultVoiceId),
   ("faisal".toList, "yMh3XlxlKciyQtb9aaKf".toList),
   ("emaan".toList, "NSKerni0PGvnWc5PhIaJ".toList),
   ("musawar".toList, "XCkZqFlln3hpafGy0oM8".toList),
   ("aftab".toList, "N3Vp5nz3tT8lqNywhElB".toList),
   ("default".toList, defaultVoiceId)]

/-- Exact-key association lookup (JavaScript object property access). -/
def assocLookup : List (List Char × List Char) → List Char → Option (List Char)
  | [], _ => none
  | kv :: rest, k => if kv.1 = k then some kv.2 else assocLookup rest k

/-- Lowercasing of a string (`String.prototype.toLowerCase` on the ASCII
names involved). -/
def lcList (l : List Char) : List Char :=
  l.map Char.toLower

/-- Embedding of `getVoiceId` (app.js lines 1454-1500): normalize the
name, check the static mapping, then search the voice directory (the
`voices` parameter models the ElevenLabs voice list) for a name that
contains the normalized name; fall back to the default voice id.  The
function never returns an empty id when both lookups miss. -/
def getVoiceId (voices : List (List Char × List Char)) (voiceName : List Char) : List Char :=
  let normalized := trim (lcList voiceName)
  match assocLookup voiceMappings normalized with
  | some vid => vid
  | none =>
    match voices.find? (fun v => containsSeq (lcList v.1) normalized) with
    | some v => v.2
    | none => defaultVoiceId

/-- Failure reply of the voice paths (app.js lines 519, 564). -/
def voiceFailText : List Char :=
  "❌ Failed to generate voice. Please try again.".toList

/-- Informational reply of the dead branch of `processVoiceWithPerson`
(app.js line 542). -/
def voiceNotFoundText (voiceName : List Char) : List Char :=
  "❌ Voice \x27".toList ++ voiceName ++ "\x27 not found. Using default voice instead.".toList

/-- Embedding of `processVoiceOnly` (app.js lines 502-528): default-voice
synthesis of the content, sent to the requesting channel (`ptt: false`),
or a failure reply. -/
def processVoiceOnly (synth : List Char → List Char → Option (List Nat))
    (content : List Char) (remoteJid : List Char) : List Delivery :=
  match generateAudio synth content with
  | some bytes => [Delivery.audioOut (.direct remoteJid) bytes false]
  | none => [Delivery.text (.direct remoteJid) voiceFailText]

/-- Embedding of `processVoiceWithPerson` (app.js lines 533-573): resolve
the voice, synthesize with it (`ptt: true`), or fail with a reply.  The
`voiceId` falsy branch is kept as in the source. -/
def processVoiceWithPerson (synth : List Char → List Char → Option (List Nat))
    (voices : List (List Char × List Char)) (content voiceName : List Char)
    (remoteJid : List Char) : List Delivery :=
  let voiceId := getVoiceId voices voiceName
  if voiceId = [] then
    Delivery.text (.direct remoteJid) (voiceNotFoundText voiceName) ::
      processVoiceOnly synth content remoteJid
  else
    match generateAudioWithVoice synth content voiceId with
    | some bytes => [Delivery.audioOut (.direct remoteJid) bytes true]
    | none => [Delivery.text (.direct remoteJid) voiceFailText]

/-! ### Headline session store (`currentHeadlines`, `processAgenda`,
`processHeadlineSelection`, app.js lines 50, 1297-1407) -/

/-- A per-channel headline session (`currentHeadlines[remoteJid]`). -/
structure HeadlineSession where
  headlines : List (List Char)
  timestamp : Nat
deriving DecidableEq, Repr

/-- The headline session store, keyed by channel id. -/
abbrev HeadlineStore := List Char → Option HeadlineSession

/-- Split on newlines (`response.split('\n')`, app.js line 1305). -/
def splitNlGo : List Char → List Char → List (List Char)
  | [], acc => [acc.reverse]
  | c :: t, acc =>
    if c = '\n' then acc.reverse :: splitNlGo t []
    else splitNlGo t (c :: acc)

/-- Embedding of `response.split('\n')`. -/
def splitNl (s : List Char) : List (List Char) :=
  splitNlGo s []

/-- Test of `line.match(/^\d+\./)` (app.js line 1305). -/
def isNumberedLine (l : List Char) : Bool :=
  let ds := l.takeWhile isDigit
  !ds.isEmpty &&
  (match l.drop ds.length with
   | '.' :: _ => true
   | _ => false)

/-- The numbered headline lines kept by `processAgenda`. -/
def numberedLines (r : List Char) : List (List Char) :=
  (splitNl r).filter isNumberedLine

/-- Failure reply of `processAgenda` (app.js line 1318). -/
def headlinesFailText : List Char :=
  "❌ Failed to fetch headlines. Please try again.".toList

/-- Embedding of `processAgenda` (app.js lines 1297-1327).  `resp` is the
result of the external `callHeadlinesAPI` call (a fixed prompt submitted
to the text service; `none` on error).  On success the numbered lines are
stored for the requesting channel with the current time and the raw
response is sent back; on failure only a failure reply is sent. -/
def processAgenda (store : HeadlineStore) (now : Nat) (remoteJid : List Char)
    (resp : Option (List Char)) : HeadlineStore × List Delivery :=
  match resp with
  | some r =>
    (fun c => if c = remoteJid then some ⟨numberedLines r, now⟩ else store c,
     [Delivery.text (.direct remoteJid) r])
  | none => (store, [Delivery.text (.direct remoteJid) headlinesFailText])

/-- Embedding of `selectedHeadline.replace(/^\d+\.\s*/, '')` (app.js
line 1354). -/
def stripNumDot (l : List Char) : List Char :=
  let ds := l.takeWhile isDigit
  if ds.isEmpty then l
  else
    match l.drop ds.length with
    | '.' :: rest => rest.dropWhile isWs
    | _ => l

/-- Decimal rendering of a number, as template interpolation produces
it. -/
def natChars (n : Nat) : List Char :=
  Nat.toDigits 10 n

/-- The script prompt of `processHeadlineSelection` (app.js
lines 1384-1386). -/
def headlineScriptPrompt (number : Nat) (headlineText : List Char) : List Char :=
  masterPrompt ++ "\n\nBase News Item (Headline ".toList ++ natChars number ++
  "): ".toList ++ headlineText

/-- Instructional failure reply of `processHeadlineSelection` (app.js
line 1338). -/
def noHeadlinesText : List Char :=
  "❌ No recent headlines found. Please type \"agenda\" first to get latest headlines.".toList

/-- Bounds-error reply of `processHeadlineSelection` (app.js line 1345). -/
def invalidNumberText (len : Nat) : List Char :=
  "❌ Invalid number. Please choose between 1-".toList ++ natChars len ++ ".".toList

/-- Failure reply of `processHeadlineSelection` (app.js line 1398). -/
def scriptFailText : List Char :=
  "❌ Failed to generate script. Please try again.".toList

/-- Embedding of `processHeadlineSelection` (app.js lines 1332-1407).
Returned, in order: the store after the call (the source never writes to
`currentHeadlines` here), the prompt submitted to the text service if
script generation was reached (`none` when the session was missing or
expired, or the index out of range), and the replies sent.  Note that the
source passes the already-assembled `scriptPrompt` through
`callPerplexityAPI`, which wraps it in the master prompt a second time. -/
def processHeadlineSelection (store : HeadlineStore) (now : Nat)
    (gen : List Char → Option (List Char)) (number : Nat) (remoteJid : List Char) :
    HeadlineStore × Option (List Char) × List Delivery :=
  match store remoteJid with
  | none => (store, none, [Delivery.text (.direct remoteJid) noHeadlinesText])
  | some s =>
    if 3600000 < now - s.timestamp then
      (store, none, [Delivery.text (.direct remoteJid) noHeadlinesText])
    else if number < 1 ∨ s.headlines.length < number then
      (store, none, [Delivery.text (.direct remoteJid) (invalidNumberText s.headlines.length)])
    else
      let selectedHeadline := s.headlines.getD (number - 1) []
      let headlineText := stripNumDot selectedHeadline
      let prompt := mkEditorialPrompt (headlineScriptPrompt number headlineText)
      match gen prompt with
      | some resp => (store, some prompt, [Delivery.text (.direct remoteJid) resp])
      | none => (store, some prompt, [Delivery.text (.direct remoteJid) scriptFailText])


/-! ### Shared concrete inputs for evaluations -/

/-- A ten-character sentence (nine letters and a terminator). -/
def u10 : List Char := "aaaaaaaaa۔".toList

/-- An input with three paragraphs of 1060, 590 and 1 characters, each
made of short sentences. -/
def c2Input : List Char :=
  joinList (List.replicate 106 u10) ++ '\n' :: '\n' ::
  joinList (List.replicate 59 u10) ++ '\n' :: '\n' :: ['b']

/-- A 1700-character single-paragraph input of 170 short sentences. -/
def c3Input : List Char :=
  joinList (List.replicate 170 u10)

/-- An input with a 1200-character paragraph followed by a one-character
paragraph: chunked into two chunks. -/
def c8Input : List Char :=
  joinList (List.replicate 120 u10) ++ '\n' :: '\n' :: ['b']

/-- A speech oracle that succeeds exactly on texts of at most 100
characters, returning a one-byte buffer holding the length. -/
def synthSmall : List Char → List Char → Option (List Nat) :=
  fun _ t => if t.length ≤ 100 then some [t.length] else none

/-- The per-chunk synthesis attempt: what `generateSingleAudioChunk`
submits for each chunk of a multi-chunk job. -/
def chunkAttempts (synth : List Char → List Char → Option (List Nat))
    (voiceId : List Char) (chunks : List (List Char)) : List (Option (List Nat)) :=
  chunks.map (fun c => generateSingleAudioChunk synth c voiceId)

/-- A twenty-character sentence (nineteen letters and a terminator). -/
def u20 : List Char := "aaaaaaaaaaaaaaaaaaa۔".toList

/-- The sentence with its following separator space. -/
def uSp : List Char := u20 ++ [' ']

/-- The final ten-character sentence. -/
def v10 : List Char := "aaaaaaaaa۔".toList

/-- A 4000-character script: 190 space-separated twenty-character
sentences and one final ten-character sentence. -/
def c7Script : List Char := joinList (List.replicate 190 uSp) ++ v10

/-- A service response wrapping `c7Script` in the script marker. -/
def c7Resp : List Char := "**Vision Point Script**".toList ++ c7Script

/-- The first distribution chunk of `c7Script` (3485 characters). -/
def c7Chunk1 : List Char := joinList (List.replicate 165 uSp) ++ u20

/-- The second distribution chunk of `c7Script` (514 characters). -/
def c7Chunk2 : List Char := joinList (List.replicate 24 uSp) ++ v10

/-- A text-generation oracle answering every prompt with `c7Resp`. -/
def c7Gen : List Char → Option (List Char) := fun _ => some c7Resp

/-! ### Support lemmas -/

theorem afterLastNl_length : ∀ l r, afterLastNl l = some r → r.length < l.length := by
  intro l
  induction l with
  | nil => intro r h; simp [afterLastNl] at h
  | cons c t ih =>
    intro r h
    simp only [afterLastNl] at h
    by_cases hw : isWs c
    · simp [hw] at h
      cases ht : afterLastNl t with
      | some r2 =>
        rw [ht] at h
        cases h
        exact Nat.lt_trans (ih _ ht) (by simp)
      | none =>
        rw [ht] at h
        by_cases hn : c = '\n'
        · simp [hn] at h; cases h; simp
        · simp [hn] at h
    · simp [hw] at h

theorem paraSepMatch_length : ∀ l r, paraSepMatch l = some r → r.length < l.length := by
  intro l r h
  match l with
  | [] => simp [paraSepMatch] at h
  | c :: t =>
    by_cases hc : c = '\n'
    · subst hc
      simp only [paraSepMatch] at h
      exact Nat.lt_trans (afterLastNl_length t r h) (by simp)
    · cases c <;> simp_all [paraSepMatch]

theorem paraSplitF_irrel :
    ∀ f g l acc, l.length < f → l.length < g →
      paraSplitF f l acc = paraSplitF g l acc := by
  intro f
  induction f with
  | zero => intro g l acc hf; omega
  | succ f ih =>
    intro g l acc hf hg
    match g, l with
    | 0, l => omega
    | g + 1, [] => rfl
    | g + 1, c :: t =>
      simp only [paraSplitF]
      cases hm : paraSepMatch (c :: t) with
      | some r =>
        have hr := paraSepMatch_length _ _ hm
        simp only [List.length_cons] at hf hg hr
        dsimp only
        rw [ih g r [] (by omega) (by omega)]
      | none =>
        simp only [List.length_cons] at hf hg
        dsimp only
        exact ih g t (c :: acc) (by omega) (by omega)

theorem dropWhileLenLe (p : Char → Bool) : ∀ l : List Char, (l.dropWhile p).length ≤ l.length := by
  intro l
  induction l with
  | nil => simp
  | cons c t ih =>
    by_cases h : p c
    · simpa [List.dropWhile, h] using Nat.le_succ_of_le ih
    · simp [List.dropWhile, h]

theorem startsWithSeq_length :
    ∀ hay needle : List Char, startsWithSeq hay needle = true → needle.length ≤ hay.length := by
  intro hay
  induction hay with
  | nil => intro needle h; cases needle with
    | nil => simp
    | cons n nt => simp [startsWithSeq] at h
  | cons c t ih =>
    intro needle h
    cases needle with
    | nil => simp
    | cons n nt =>
      simp only [startsWithSeq, Bool.and_eq_true] at h
      simpa using ih nt h.2

theorem dashAfter_length (rest : List Char) : (dashAfter rest).1.length ≤ rest.length := by
  simp [dashAfter]

theorem dashesSplit_length :
    ∀ l rest : List Char, dashesSplit l = some rest →
      rest.length + 3 = l.length := by
  intro l rest h
  simp only [dashesSplit] at h
  split at h
  · rename_i hs
    cases h
    have := startsWithSeq_length _ _ hs
    simp only [List.length_cons, List.length_nil] at this
    simp only [List.length_drop]
    omega
  · exact Option.noConfusion h

theorem dashTryK_length (l : List Char) :
    ∀ k r b, dashTryK l k = some (r, b) → r.length < l.length := by
  intro k
  induction k with
  | zero =>
    intro r b h
    simp only [dashTryK] at h
    cases hrest : dashesSplit l with
    | none => rw [hrest] at h; simp at h
    | some rest =>
      rw [hrest] at h
      simp only [Option.map_some'] at h
      have hval : dashAfter rest = (r, b) := by injection h
      have h1 : r.length = (dashAfter rest).1.length := by rw [hval]
      have h3 := dashesSplit_length _ _ hrest
      have h4 := dashAfter_length rest
      omega
  | succ k ih =>
    intro r b h
    simp only [dashTryK] at h
    split at h
    · rename_i rest heq
      have hval : dashAfter rest = (r, b) := by injection h
      have h1 : r.length = (dashAfter rest).1.length := by rw [hval]
      have h3 := dashesSplit_length _ _ heq
      have h4 := dashAfter_length rest
      simp only [List.length_drop] at h3
      omega
    · exact ih r b h

theorem dashMatchAt_length (l : List Char) (r : List Char) (b : Bool) :
    dashMatchAt l = some (r, b) → r.length < l.length :=
  dashTryK_length l (wsRunLen l) r b



/-! ### C10 -/

/-- C10: processing a HeadlineSelect intent never modifies the headline
session store: on success, on session-missing/expired and on
out-of-range selection alike, the returned store is the input store
(hence every channel's entry, including the expired one, is unchanged);
only Agenda fulfillment writes to the store. -/
theorem c10_selection_preserves_store (store : HeadlineStore) (now : Nat)
    (gen : List Char → Option (List Char)) (number : Nat) (remoteJid : List Char) :
    (processHeadlineSelection store now gen number remoteJid).1 = store := by
  unfold processHeadlineSelection
  cases store remoteJid with
  | none => rfl
  | some s =>
    dsimp only
    split
    · rfl
    · split
      · rfl
      · cases gen (mkEditorialPrompt (headlineScriptPrompt number
          (stripNumDot (s.headlines.getD (number - 1) [])))) <;> rfl

/-! ### C5 -/

/-- C5: a HeadlineSelect strictly more than 3600000 ms after the Agenda
fetch that created the channel's session yields the instructional failure
reply and no generation call; at 3540000 ms (59 minutes) it proceeds to
generate a script from the selected headline; a missing session behaves
identically to an expired one. -/
theorem c5_session_ttl :
    (∀ (store : HeadlineStore) (tFetch d : Nat) (remoteJid r : List Char)
       (gen : List Char → Option (List Char)) (n : Nat),
       3600000 < d →
       processHeadlineSelection (processAgenda store tFetch remoteJid (some r)).1
           (tFetch + d) gen n remoteJid =
         ((processAgenda store tFetch remoteJid (some r)).1, none,
          [Delivery.text (.direct remoteJid) noHeadlinesText])) ∧
    (∀ (store : HeadlineStore) (tFetch : Nat) (remoteJid r : List Char)
       (gen : List Char → Option (List Char)) (n : Nat),
       1 ≤ n → n ≤ (numberedLines r).length →
       (processHeadlineSelection (processAgenda store tFetch remoteJid (some r)).1
           (tFetch + 3540000) gen n remoteJid).2.1 =
         some (mkEditorialPrompt (headlineScriptPrompt n
           (stripNumDot ((numberedLines r).getD (n - 1) []))))) ∧
    (∀ (store : HeadlineStore) (now : Nat)
       (gen : List Char → Option (List Char)) (n : Nat) (remoteJid : List Char),
       store remoteJid = none →
       processHeadlineSelection store now gen n remoteJid =
         (store, none, [Delivery.text (.direct remoteJid) noHeadlinesText])) := by
  refine ⟨?_, ?_, ?_⟩
  · intro store tFetch d remoteJid r gen n hd
    have hs : (processAgenda store tFetch remoteJid (some r)).1 remoteJid =
        some ⟨numberedLines r, tFetch⟩ := by
      simp [processAgenda]
    unfold processHeadlineSelection
    rw [hs]
    dsimp only
    rw [if_pos (show 3600000 < tFetch + d - tFetch by omega)]
  · intro store tFetch remoteJid r gen n h1 h2
    have hs : (processAgenda store tFetch remoteJid (some r)).1 remoteJid =
        some ⟨numberedLines r, tFetch⟩ := by
      simp [processAgenda]
    unfold processHeadlineSelection
    rw [hs]
    dsimp only
    rw [if_neg (show ¬ 3600000 < tFetch + 3540000 - tFetch by omega),
        if_neg (show ¬ (n < 1 ∨ (numberedLines r).length < n) by omega)]
    cases gen (mkEditorialPrompt (headlineScriptPrompt n
        (stripNumDot ((numberedLines r).getD (n - 1) [])))) <;> rfl
  · intro store now gen n remoteJid h
    unfold processHeadlineSelection
    rw [h]

/-- Witness for C5 at concrete inputs: an agenda fetch at time 0 storing
two headlines, selection of headline 1 at 3600001 ms fails
instructionally, and at 3540000 ms the generation call is made. -/
theorem c5_session_ttl_witness :
    (processHeadlineSelection
        (processAgenda (fun _ => none) 0 "chan".toList (some "1. alpha\n2. beta".toList)).1
        (0 + 3600001) (fun _ => some "S".toList) 1 "chan".toList =
      ((processAgenda (fun _ => none) 0 "chan".toList (some "1. alpha\n2. beta".toList)).1, none,
       [Delivery.text (.direct "chan".toList) noHeadlinesText])) ∧
    ((processHeadlineSelection
        (processAgenda (fun _ => none) 0 "chan".toList (some "1. alpha\n2. beta".toList)).1
        (0 + 3540000) (fun _ => some "S".toList) 1 "chan".toList).2.1 =
      some (mkEditorialPrompt (headlineScriptPrompt 1
        (stripNumDot ((numberedLines "1. alpha\n2. beta".toList).getD 0 []))))) ∧
    (processHeadlineSelection (fun _ => none) 77 (fun _ => some "S".toList) 1 "x".toList =
      (fun _ => none, none, [Delivery.text (.direct "x".toList) noHeadlinesText])) :=
  ⟨c5_session_ttl.1 (fun _ => none) 0 3600001 "chan".toList "1. alpha\n2. beta".toList
      (fun _ => some "S".toList) 1 (by omega),
   c5_session_ttl.2.1 (fun _ => none) 0 "chan".toList "1. alpha\n2. beta".toList
      (fun _ => some "S".toList) 1 (by omega) (by decide),
   c5_session_ttl.2.2 (fun _ => none) 77 (fun _ => some "S".toList) 1 "x".toList rfl⟩

/-! ### C6 -/

/-- C6: on the editorial path, a failed text-generation call (service
failure or empty response) and an empty extracted script each abort
silently: no heading, no chunks, no reaction — zero deliveries. -/
theorem c6_editorial_failure_silent
    (gen : List Char → Option (List Char)) (editorial : List Char) (messageId : Nat) :
    (gen (mkEditorialPrompt editorial) = none →
      processEditorial gen editorial messageId = []) ∧
    (∀ resp, gen (mkEditorialPrompt editorial) = some resp → resp = [] →
      processEditorial gen editorial messageId = []) ∧
    (∀ resp, gen (mkEditorialPrompt editorial) = some resp → extractScript resp = [] →
      processEditorial gen editorial messageId = []) := by
  refine ⟨?_, ?_, ?_⟩
  · intro h
    unfold processEditorial callPerplexityAPI
    rw [h]
  · intro resp h hr
    unfold processEditorial callPerplexityAPI
    simp only [h]
    rw [if_pos hr]
  · intro resp h hs
    unfold processEditorial callPerplexityAPI
    simp only [h]
    by_cases hr : resp = []
    · rw [if_pos hr]
    · rw [if_neg hr]
      simp only [hs]
      simp

/-- Witness for C6 at concrete inputs: a failing service, an
empty-string response, and a response whose extracted script is empty
each produce zero deliveries. -/
theorem c6_editorial_failure_silent_witness :
    processEditorial (fun _ => none) "floods in Punjab".toList 3 = [] ∧
    processEditorial (fun _ => some []) "floods in Punjab".toList 3 = [] ∧
    processEditorial (fun _ => some "**Vision Point Script**".toList) "floods in Punjab".toList 3 = [] :=
  ⟨(c6_editorial_failure_silent (fun _ => none) "floods in Punjab".toList 3).1 rfl,
   (c6_editorial_failure_silent (fun _ => some []) "floods in Punjab".toList 3).2.1 [] rfl rfl,
   (c6_editorial_failure_silent (fun _ => some "**Vision Point Script**".toList)
      "floods in Punjab".toList 3).2.2 "**Vision Point Script**".toList rfl (by decide)⟩

/-! ### C9 -/

/-- Counterexample to C9: the name `qasim` resolves neither in the static
mapping nor in the (empty) voice directory, yet the only delivery is the
audio itself — no informational reply precedes it, because `getVoiceId`
returns the default voice id rather than a falsy value. -/
theorem c9_counterexample :
    assocLookup voiceMappings (trim (lcList "qasim".toList)) = none ∧
    (([] : List (List Char × List Char)).find?
      (fun v => containsSeq (lcList v.1) (trim (lcList "qasim".toList)))) = none ∧
    getVoiceId [] "qasim".toList = defaultVoiceId ∧
    processVoiceWithPerson synthSmall [] "hello۔".toList "qasim".toList "user1".toList =
      [Delivery.audioOut (.direct "user1".toList) [6] true] := by
  refine ⟨by decide, rfl, by decide, by decide⟩

/-- C9 (amended): when the voice name resolves neither in the static
case-insensitive mapping nor via the voice-service lookup, the pipeline
falls back to the default voice, but no informational reply is sent: the
not-found reply branch is unreachable since `getVoiceId` never returns an
empty id. -/
theorem c9_default_fallback_silent
    (voices : List (List Char × List Char)) (voiceName : List Char)
    (synth : List Char → List Char → Option (List Nat)) (content remoteJid : List Char)
    (h1 : assocLookup voiceMappings (trim (lcList voiceName)) = none)
    (h2 : voices.find? (fun v => containsSeq (lcList v.1) (trim (lcList voiceName))) = none) :
    getVoiceId voices voiceName = defaultVoiceId ∧
    processVoiceWithPerson synth voices content voiceName remoteJid =
      (match generateAudioWithVoice synth content defaultVoiceId with
       | some bytes => [Delivery.audioOut (.direct remoteJid) bytes true]
       | none => [Delivery.text (.direct remoteJid) voiceFailText]) := by
  have hv : getVoiceId voices voiceName = defaultVoiceId := by
    simp [getVoiceId, h1, h2]
  refine ⟨hv, ?_⟩
  unfold processVoiceWithPerson
  rw [hv, if_neg (by decide)]

/-- Witness for C9 (amended) at concrete inputs. -/
theorem c9_default_fallback_silent_witness :
    getVoiceId [] "younus".toList = defaultVoiceId ∧
    processVoiceWithPerson synthSmall [] "salaam۔".toList "younus".toList "user2".toList =
      (match generateAudioWithVoice synthSmall "salaam۔".toList defaultVoiceId with
       | some bytes => [Delivery.audioOut (.direct "user2".toList) bytes true]
       | none => [Delivery.text (.direct "user2".toList) voiceFailText]) :=
  c9_default_fallback_silent [] "younus".toList synthSmall "salaam۔".toList "user2".toList
    (by decide) rfl

/-! ### C3 -/

set_option maxRecDepth 100000 in
/-- C3: evidence of the dead sentence-only fallback. `c3Input` has no
paragraph boundary (one piece), 170 sentence boundaries, and exceeds
`maxChunkSize`, yet `splitScriptIntoChunks` returns a single
1700-character chunk (the whole input): the paragraph pass always pushes the remaining
buffer first, so the fallback guard `chunks.length === 0` never fires on
non-whitespace input, contradicting the claimed (and commented) sentence
splitting. -/
theorem c3_fallback_dead :
    (paraSplit c3Input).length = 1 ∧
    171 ≤ (sentences c3Input).length ∧
    c3Input.length = 1700 ∧
    maxChunkSize < c3Input.length ∧
    (splitScriptIntoChunks c3Input).map List.length = [1700] := by
  refine ⟨by decide, by decide, by decide, by decide, by decide⟩

/-! ### C2 (counterexample) -/

set_option maxRecDepth 100000 in
/-- Counterexample to C2: on `c2Input` every paragraph and every sentence
unit (of the whole input and of each paragraph) is at most
`maxChunkSize` characters, yet a produced chunk exceeds `maxChunkSize`:
the 1060-character buffer is under `minChunkSize`, so the 590-character
second paragraph is appended (with the two-character separator the size
check does not count), and the resulting 1652-character buffer is emitted
verbatim. -/
theorem c2_counterexample :
    ((splitScriptIntoChunks c2Input).any (fun c => decide (maxChunkSize < c.length)) = true) ∧
    ((paraSplit c2Input).all (fun p => decide ((trim p).length ≤ maxChunkSize)) = true) ∧
    ((sentences c2Input).all (fun u => decide (u.length ≤ maxChunkSize)) = true) ∧
    ((paraSplit c2Input).all
      (fun p => (sentences (trim p)).all (fun u => decide (u.length ≤ maxChunkSize))) = true) := by
  refine ⟨by decide, by decide, by decide, by decide⟩

/-! ### C8 -/

theorem collectAudioChunks_eq (synth : List Char → List Char → Option (List Nat))
    (voiceId : List Char) :
    ∀ chunks, collectAudioChunks synth voiceId chunks =
      (chunkAttempts synth voiceId chunks).reduceOption := by
  intro chunks
  induction chunks with
  | nil => rfl
  | cons c rest ih =>
    simp only [collectAudioChunks, chunkAttempts, List.map_cons]
    cases generateSingleAudioChunk synth c voiceId with
    | none =>
      rw [List.reduceOption_cons_of_none]
      exact ih
    | some b =>
      rw [List.reduceOption_cons_of_some]
      simpa [chunkAttempts] using ih

/-- C8: in multi-chunk audio synthesis a failed chunk is skipped rather
than aborting the job: the successfully synthesized buffers are
concatenated in chunk order, and the whole job returns no audio if and
only if zero chunks succeed. -/
theorem c8_partial_success (synth : List Char → List Char → Option (List Nat))
    (script : List Char) (h : 2 ≤ (splitScriptIntoChunks script).length) :
    generateAudio synth script =
      (if (chunkAttempts synth elevenLabsVoiceId (splitScriptIntoChunks script)).reduceOption = []
       then none
       else some (joinBytes
         (chunkAttempts synth elevenLabsVoiceId (splitScriptIntoChunks script)).reduceOption)) := by
  have hne : script.length ≠ 0 := by
    intro h0
    have : script = [] := List.length_eq_zero.mp h0
    subst this
    simp [splitScriptIntoChunks] at h
  unfold generateAudio
  rw [if_neg hne, if_neg (by omega), collectAudioChunks_eq]
  rfl

set_option maxRecDepth 100000 in
/-- Witness for C8 at concrete inputs: `c8Input` chunks into a
1200-character chunk and a one-character chunk; the oracle fails on the
first and succeeds on the second, and the job returns the second buffer
alone. -/
theorem c8_partial_success_witness :
    2 ≤ (splitScriptIntoChunks c8Input).length ∧
    generateAudio synthSmall c8Input =
      (if (chunkAttempts synthSmall elevenLabsVoiceId (splitScriptIntoChunks c8Input)).reduceOption = []
       then none
       else some (joinBytes
         (chunkAttempts synthSmall elevenLabsVoiceId (splitScriptIntoChunks c8Input)).reduceOption)) :=
  ⟨by decide, c8_partial_success synthSmall c8Input (by decide)⟩



/-! ### List and trim lemmas for the classifier proof -/

theorem dwAppendAll {p : Char → Bool} :
    ∀ {A : List Char} (B : List Char), (∀ c ∈ A, p c = true) →
      (A ++ B).dropWhile p = B.dropWhile p := by
  intro A
  induction A with
  | nil => intro B _; rfl
  | cons a A ih =>
    intro B h
    have ha : p a = true := h a (by simp)
    simp only [List.cons_append, List.dropWhile_cons_of_pos ha]
    exact ih B (fun c hc => h c (by simp [hc]))

theorem dwAppendMid {p : Char → Bool} {b : Char} (hb : p b = false) :
    ∀ (A B : List Char), (A ++ b :: B).dropWhile p = A.dropWhile p ++ b :: B := by
  intro A
  induction A with
  | nil =>
    intro B
    simp [List.dropWhile_cons, hb]
  | cons a A ih =>
    intro B
    by_cases ha : p a
    · simp only [List.cons_append, List.dropWhile_cons_of_pos ha]
      exact ih B
    · simp [List.dropWhile_cons_of_neg ha]

theorem dwAppendNonNil {p : Char → Bool} :
    ∀ {A : List Char} (B : List Char), A.dropWhile p ≠ [] →
      (A ++ B).dropWhile p = A.dropWhile p ++ B := by
  intro A
  induction A with
  | nil => intro B h; exact absurd rfl h
  | cons a A ih =>
    intro B h
    by_cases ha : p a
    · rw [List.dropWhile_cons_of_pos ha] at h
      simp only [List.cons_append, List.dropWhile_cons_of_pos ha]
      exact ih B h
    · simp [List.dropWhile_cons_of_neg ha]

theorem twAppendAll {p : Char → Bool} :
    ∀ {A : List Char} (B : List Char), (∀ c ∈ A, p c = true) →
      (A ++ B).takeWhile p = A ++ B.takeWhile p := by
  intro A
  induction A with
  | nil => intro B _; rfl
  | cons a A ih =>
    intro B h
    have ha : p a = true := h a (by simp)
    simp only [List.cons_append, List.takeWhile_cons_of_pos ha, List.cons.injEq, true_and]
    exact ih B (fun c hc => h c (by simp [hc]))

theorem headDropWhileFalse {p : Char → Bool} :
    ∀ {l : List Char} {c : Char} {t : List Char}, l.dropWhile p = c :: t → p c = false := by
  intro l
  induction l with
  | nil => intro c t h; cases h
  | cons a l ih =>
    intro c t h
    by_cases ha : p a
    · rw [List.dropWhile_cons_of_pos ha] at h
      exact ih h
    · rw [List.dropWhile_cons_of_neg ha] at h
      cases h
      simpa using ha

theorem dropLenTakeWhile (p : Char → Bool) (l : List Char) :
    l.drop (l.takeWhile p).length = l.dropWhile p :=
  calc l.drop (l.takeWhile p).length
      = (l.takeWhile p ++ l.dropWhile p).drop (l.takeWhile p).length := by
        rw [List.takeWhile_append_dropWhile]
    _ = l.dropWhile p := List.drop_left _ _

theorem dwIdem (p : Char → Bool) (l : List Char) :
    (l.dropWhile p).dropWhile p = l.dropWhile p := by
  induction l with
  | nil => rfl
  | cons a l ih =>
    by_cases ha : p a
    · rw [List.dropWhile_cons_of_pos ha]; exact ih
    · rw [List.dropWhile_cons_of_neg ha, List.dropWhile_cons_of_neg ha]

theorem twLenLtOfNotAll {p : Char → Bool} {l : List Char}
    (h : ¬ ∀ c ∈ l, p c = true) : (l.takeWhile p).length < l.length := by
  induction l with
  | nil => exact absurd (by intro c hc; cases hc) h
  | cons a l ih =>
    by_cases ha : p a
    · rw [List.takeWhile_cons_of_pos ha]
      simp only [List.length_cons, Nat.add_lt_add_iff_right]
      apply ih
      intro hall
      apply h
      intro c hc
      rcases List.mem_cons.mp hc with rfl | hc2
      · exact ha
      · exact hall c hc2
    · rw [List.takeWhile_cons_of_neg ha]
      simp

theorem trimEq (l : List Char) : trim l = trimEnd (l.dropWhile isWs) := rfl

theorem trimAllWsNil {X : List Char} (h : ∀ c ∈ X, isWs c = true) : trim X = [] := by
  have hX : X.dropWhile isWs = [] := List.dropWhile_eq_nil_iff.mpr h
  rw [trimEq, hX]
  rfl

theorem trimEndRev (l : List Char) : (trimEnd l).reverse = l.reverse.dropWhile isWs := by
  simp [trimEnd]

theorem trimEndAppendNonWs {c : Char} (hc : isWs c = false) (X Y : List Char) :
    trimEnd (X ++ c :: Y) = X ++ c :: trimEnd Y := by
  unfold trimEnd
  rw [List.reverse_append, List.reverse_cons, List.append_assoc,
    List.singleton_append, dwAppendMid hc, List.reverse_append, List.reverse_cons,
    List.reverse_reverse]
  simp

theorem trimEndAppendWs {W : List Char} (hW : ∀ c ∈ W, isWs c = true) (X : List Char) :
    trimEnd (X ++ W) = trimEnd X := by
  unfold trimEnd
  rw [List.reverse_append, dwAppendAll _ (by simpa using hW)]

theorem trimEndDecomp (r : List Char) :
    r = trimEnd r ++ (r.reverse.takeWhile isWs).reverse ∧
    (∀ c ∈ (r.reverse.takeWhile isWs).reverse, isWs c = true) := by
  constructor
  · conv_lhs => rw [← List.reverse_reverse r, ← List.takeWhile_append_dropWhile isWs r.reverse]
    rw [List.reverse_append]
    rfl
  · intro c hc
    rw [List.mem_reverse] at hc
    exact List.mem_takeWhile_imp hc

theorem trimEndNeNilHasNonWs {r : List Char} (h : trimEnd r ≠ []) :
    (trimEnd r).dropWhile isWs ≠ [] := by
  intro hall
  have hmem := List.dropWhile_eq_nil_iff.mp hall
  cases hv : (trimEnd r).reverse with
  | nil => exact h (by simpa using hv)
  | cons c t =>
    have hc : isWs c = false := by
      rw [trimEndRev] at hv
      exact headDropWhileFalse hv
    have hcm : c ∈ trimEnd r := by
      rw [← List.mem_reverse, hv]
      simp
    rw [hmem c hcm] at hc
    cases hc

/-- The form shared by both regex captures: dropping the greedy
whitespace prefix (backtracked to leave one character) and trimming gives
plain trim, as soon as the string has a character failing `isWs`. -/
theorem trimContentGroup {X : List Char} (h : ¬ ∀ c ∈ X, isWs c = true) :
    trim (contentGroup X) = trim X := by
  unfold contentGroup wsRunLen
  rw [min_eq_left (by have := twLenLtOfNotAll h; omega), dropLenTakeWhile]
  rw [trimEq, trimEq, dwIdem]

theorem trimTrimEnd (r : List Char) : trim (trimEnd r) = trim r := by
  by_cases h : ∀ c ∈ r, isWs c = true
  · have h1 : trim r = [] := trimAllWsNil h
    have h2 : trimEnd r = [] := by
      unfold trimEnd
      rw [List.dropWhile_eq_nil_iff.mpr (by intro c hc; exact h c (List.mem_reverse.mp hc))]
      rfl
    rw [h2, h1]
    rfl
  · obtain ⟨hdec, hws⟩ := trimEndDecomp r
    have hne : (trimEnd r).dropWhile isWs ≠ [] := by
      apply trimEndNeNilHasNonWs
      intro hnil
      apply h
      intro c hc
      rw [hdec] at hc
      rcases List.mem_append.mp hc with hc | hc
      · rw [hnil] at hc; cases hc
      · exact hws c hc
    rw [trimEq, trimEq]
    conv_rhs => rw [hdec]
    rw [dwAppendNonNil _ hne, trimEndAppendWs hws]

theorem splitAtColonApp {X : List Char} (hX : ∀ c ∈ X, c ≠ ':') (Y : List Char) :
    splitAtColon (X ++ ':' :: Y) = some (X, Y) := by
  induction X with
  | nil => simp [splitAtColon]
  | cons a A ih =>
    have ha : ¬ a = ':' := hX a (by simp)
    rw [List.cons_append]
    simp only [splitAtColon]
    rw [if_neg ha, ih (fun c hc => hX c (by simp [hc]))]
    rfl

/-! ### C4 -/

/-- C4: the VoicePerson pattern is tried before the plain Voice pattern:
every input of the form `voice` + whitespace + name + `:` + content
(name nonempty and colon-free, content not all whitespace) classifies as
`voicePerson` with both captures trimmed — never as `voice`. -/
theorem c4_voicePerson_first (w m r : List Char)
    (hw : w ≠ []) (hwws : ∀ c ∈ w, isWs c = true)
    (hm : m ≠ []) (hmc : ∀ c ∈ m, c ≠ ':')
    (hr : trim r ≠ []) :
    parseCommand ("voice".toList ++ w ++ m ++ ':' :: r) =
      some (.voicePerson (trim m) (trim r)) := by
  obtain ⟨wc, w', rfl⟩ : ∃ wc w', w = wc :: w' := by
    cases w with
    | nil => exact absurd rfl hw
    | cons a b => exact ⟨a, b, rfl⟩
  have hwc : isWs wc = true := hwws wc (by simp)
  obtain ⟨d, ds, hds⟩ : ∃ d ds, w' ++ m = d :: ds := by
    cases hx : w' ++ m with
    | nil => exact absurd (List.append_eq_nil.mp hx).2 hm
    | cons a b => exact ⟨a, b, rfl⟩
  have htail : trimEnd r ≠ [] := by
    intro h0
    apply hr
    rw [← trimTrimEnd, h0]
    rfl
  -- the trimmed input keeps everything up to the colon and right-trims r
  have hV : ("voice".toList : List Char) = 'v' :: 'o' :: 'i' :: 'c' :: 'e' :: [] := rfl
  have e1 : ("voice".toList ++ (wc :: w') ++ m ++ ':' :: r : List Char) =
      'v' :: 'o' :: 'i' :: 'c' :: 'e' :: (wc :: w' ++ (m ++ ':' :: r)) := by
    rw [hV]
    simp
  have e2 : ('v' :: 'o' :: 'i' :: 'c' :: 'e' :: (wc :: w' ++ (m ++ ':' :: r)) : List Char) =
      ('v' :: 'o' :: 'i' :: 'c' :: 'e' :: (wc :: w' ++ m)) ++ ':' :: r := by
    simp
  have htrim : trim ("voice".toList ++ (wc :: w') ++ m ++ ':' :: r) =
      "voice".toList ++ (wc :: w') ++ m ++ ':' :: trimEnd r := by
    rw [trimEq, e1, List.dropWhile_cons_of_neg (by decide), e2,
      trimEndAppendNonWs (by decide)]
    rw [hV]
    simp
  have hsplit : splitAtColon (((wc :: w') ++ m) ++ ':' :: trimEnd r) =
      some ((wc :: w') ++ m, trimEnd r) := by
    apply splitAtColonApp
    intro c hc
    rcases List.mem_append.mp hc with hc | hc
    · intro he
      subst he
      exact absurd (hwws ':' hc) (by decide)
    · exact hmc c hc
  have e5 : ((wc :: w') ++ m : List Char) = wc :: d :: ds := by
    rw [List.cons_append, hds]
  -- the voicePerson matcher fires on the trimmed input
  have hvp : voicePersonMatch ("voice".toList ++ (wc :: w') ++ m ++ ':' :: trimEnd r) =
      some (trim (contentGroup ((wc :: w') ++ m)), trim (contentGroup (trimEnd r))) := by
    have e3 : ("voice".toList ++ (wc :: w') ++ m ++ ':' :: trimEnd r : List Char) =
        "voice".toList ++ (((wc :: w') ++ m) ++ ':' :: trimEnd r) := by
      simp
    unfold voicePersonMatch
    rw [e3]
    rw [show dropStartCI "voice".toList
          ("voice".toList ++ (((wc :: w') ++ m) ++ ':' :: trimEnd r)) =
          some (((wc :: w') ++ m) ++ ':' :: trimEnd r) from rfl]
    dsimp only
    rw [hsplit]
    dsimp only
    rw [e5]
    dsimp only
    rw [if_pos ⟨by simpa using hwc, htail⟩]
  -- group 1 trims to the name
  have hA : trim (contentGroup ((wc :: w') ++ m)) = trim m := by
    by_cases hmw : ∀ c ∈ m, isWs c = true
    · have h1 : trim m = [] := trimAllWsNil hmw
      have h3 : ∀ c ∈ contentGroup ((wc :: w') ++ m), isWs c = true := by
        intro c hc
        have hc2 := List.mem_of_mem_drop hc
        rcases List.mem_append.mp hc2 with hc2 | hc2
        · exact hwws c hc2
        · exact hmw c hc2
      rw [trimAllWsNil h3, h1]
    · have hrun : wsRunLen ((wc :: w') ++ m) = (wc :: w').length + wsRunLen m := by
        unfold wsRunLen
        rw [twAppendAll _ hwws]
        simp
        omega
      have hlt : wsRunLen m < m.length := twLenLtOfNotAll hmw
      have hmin : min (wsRunLen ((wc :: w') ++ m)) (((wc :: w') ++ m).length - 1) =
          (wc :: w').length + wsRunLen m := by
        rw [hrun]
        simp only [List.length_append]
        omega
      unfold contentGroup
      rw [hmin, ← List.drop_drop, List.drop_left]
      unfold wsRunLen
      rw [dropLenTakeWhile]
      rw [trimEq, trimEq, dwIdem]
  -- group 2 trims to the content
  have hB : trim (contentGroup (trimEnd r)) = trim r := by
    have hne : ¬ ∀ c ∈ trimEnd r, isWs c = true := by
      intro hall
      exact trimEndNeNilHasNonWs htail (List.dropWhile_eq_nil_iff.mpr hall)
    rw [trimContentGroup hne, trimTrimEnd]
  -- assemble the classifier chain
  unfold parseCommand
  rw [htrim]
  dsimp only
  rw [show keyColonMatch "topic".toList
        ("voice".toList ++ (wc :: w') ++ m ++ ':' :: trimEnd r) = none from rfl]
  rw [show keyColonMatch "script".toList
        ("voice".toList ++ (wc :: w') ++ m ++ ':' :: trimEnd r) = none from rfl]
  rw [show keyColonMatch "visuals".toList
        ("voice".toList ++ (wc :: w') ++ m ++ ':' :: trimEnd r) = none from rfl]
  rw [hvp]
  dsimp only
  rw [hA, hB]

/-- Witness for C4: `classify("voice musawar: hello")` is
`VoicePerson{voiceName: "musawar", content: "hello"}`, not `Voice`. -/
theorem c4_voicePerson_first_witness :
    parseCommand "voice musawar: hello".toList =
      some (.voicePerson "musawar".toList "hello".toList) := by
  have h := c4_voicePerson_first [' '] "musawar".toList " hello".toList
    (by decide) (by decide) (by decide) (by decide) (by decide)
  rw [show ("voice".toList ++ [' '] ++ "musawar".toList ++ ':' :: " hello".toList) =
        "voice musawar: hello".toList from by decide] at h
  rw [show trim "musawar".toList = "musawar".toList from by decide] at h
  rw [show trim " hello".toList = "hello".toList from by decide] at h
  exact h


/-! ### C7 -/

/-- C7: on editorial-path success whose extracted script is 4000
characters and distribution-chunks (at 3500) into exactly two chunks, the
outbound deliveries are, in order: the heading, the two ordered script
chunks, and the checkmark reaction on the original message — and nothing
else (in particular, no audio). -/
theorem c7_editorial_success
    (gen : List Char → Option (List Char)) (editorial : List Char) (messageId : Nat)
    (resp s c1 c2 : List Char)
    (h1 : gen (mkEditorialPrompt editorial) = some resp)
    (h2 : resp ≠ [])
    (h3 : extractScript resp = s)
    (h4 : s ≠ [])
    (h5 : s.length = 4000)
    (h6 : chunkText s 3500 = [c1, c2]) :
    processEditorial gen editorial messageId =
      [Delivery.text .demoScript (heading editorial),
       Delivery.text .demoScript c1,
       Delivery.text .demoScript c2,
       Delivery.reaction .content messageId '✅'] := by
  unfold processEditorial callPerplexityAPI
  rw [h1]
  dsimp only
  rw [if_neg h2, h3, if_neg h4]
  unfold sendToWhatsAppGroups
  rw [if_pos h4, h6]
  rfl

/-! ### Evaluation lemmas for the C7 witness script

The 4000-character inputs are far past the depth the kernel can evaluate
outright, so the hypotheses of the witness are discharged symbolically,
by induction over the replicate structure of `c7Script`. -/

theorem joinList_append (A B : List (List Char)) :
    joinList (A ++ B) = joinList A ++ joinList B := by
  induction A with
  | nil => rfl
  | cons x A ih => simp [joinList, ih]

theorem joinRepl_length (u : List Char) : ∀ k,
    (joinList (List.replicate k u)).length = k * u.length := by
  intro k
  induction k with
  | zero => simp [joinList]
  | succ k ih =>
    rw [List.replicate_succ]
    simp only [joinList, List.length_append, ih]
    ring

theorem joinReplSnoc (u : List Char) : ∀ k,
    joinList (List.replicate (k + 1) u) = joinList (List.replicate k u) ++ u := by
  intro k
  rw [List.replicate_succ', joinList_append]
  simp [joinList]

theorem joinRepl_mem {u : List Char} {c : Char} :
    ∀ {k}, c ∈ joinList (List.replicate k u) → c ∈ u := by
  intro k
  induction k with
  | zero => intro h; cases h
  | succ k ih =>
    intro h
    rw [List.replicate_succ] at h
    simp only [joinList] at h
    rcases List.mem_append.mp h with h | h
    · exact h
    · exact ih h

theorem c7Script_length : c7Script.length = 4000 := by
  unfold c7Script
  rw [List.length_append, joinRepl_length]
  rfl

theorem c7Script_mem {c : Char} (h : c ∈ c7Script) : c = 'a' ∨ c = '۔' ∨ c = ' ' := by
  have hu : ∀ x ∈ uSp, x = 'a' ∨ x = '۔' ∨ x = ' ' := by decide
  have hv : ∀ x ∈ v10, x = 'a' ∨ x = '۔' ∨ x = ' ' := by decide
  unfold c7Script at h
  rcases List.mem_append.mp h with h | h
  · exact hu c (joinRepl_mem h)
  · exact hv c h

theorem c7Resp_mem {c : Char} (h : c ∈ c7Resp) :
    c = 'a' ∨ c = '۔' ∨ c = ' ' ∨ c ∈ "**Vision Point Script**".toList := by
  unfold c7Resp at h
  rcases List.mem_append.mp h with h | h
  · right; right; right; exact h
  · rcases c7Script_mem h with h | h | h
    · left; exact h
    · right; left; exact h
    · right; right; left; exact h

/-! Emoji scan: no position of `c7Resp` starts with the emoji. -/

theorem scanEmojiNone : ∀ {l : List Char}, (∀ c ∈ l, c ≠ '📝') →
    scanMatch vpsEmoji l = none := by
  intro l
  induction l with
  | nil => intro _; rfl
  | cons c t ih =>
    intro h
    have hc : c ≠ '📝' := h c (by simp)
    have hv : vpsEmoji (c :: t) = none := by
      unfold vpsEmoji
      split
      · rename_i heq
        exact absurd (List.head_eq_of_cons_eq heq.symm).symm hc
      · rfl
    unfold scanMatch
    rw [hv]
    exact ih (fun d hd => h d (by simp [hd]))

/-! The lazy capture keeps a dash-free tail whole. -/

theorem upToDashesNoDash : ∀ {l : List Char}, (∀ c ∈ l, c ≠ '-') →
    upToDashes l = l := by
  intro l
  induction l with
  | nil => intro _; rfl
  | cons c t ih =>
    intro h
    have hc : c ≠ '-' := h c (by simp)
    unfold upToDashes
    rw [if_neg (by simp [startsWithSeq, hc])]
    rw [ih (fun d hd => h d (by simp [hd]))]

/-! Dash-line stripping is the identity on dash-free strings. -/

theorem dashesSplitNone {l : List Char} (h : ∀ c ∈ l, c ≠ '-') :
    dashesSplit l = none := by
  unfold dashesSplit
  cases l with
  | nil => rfl
  | cons c t =>
    have hc : c ≠ '-' := h c (by simp)
    rw [if_neg (by simp [startsWithSeq, hc])]

theorem dashTryKNone {l : List Char} (h : ∀ c ∈ l, c ≠ '-') :
    ∀ k, dashTryK l k = none := by
  intro k
  induction k with
  | zero =>
    unfold dashTryK
    rw [dashesSplitNone h]
    rfl
  | succ k ih =>
    unfold dashTryK
    rw [dashesSplitNone (fun c hc => h c (List.mem_of_mem_drop hc))]
    exact ih

set_option maxHeartbeats 1600000 in
theorem stripFNoDash : ∀ (f : Nat) {l : List Char} (b : Bool),
    l.length < f → (∀ c ∈ l, c ≠ '-') → stripF f l b = l := by
  intro f
  induction f with
  | zero => intro l b hf; omega
  | succ f ih =>
    intro l b hf h
    cases l with
    | nil => cases b <;> rfl
    | cons c t =>
      have hrest : ∀ d ∈ t, d ≠ '-' := fun d hd => h d (by simp [hd])
      have hlen : t.length < f := by simp at hf; omega
      have hdm : dashMatchAt (c :: t) = none := by
        unfold dashMatchAt
        exact dashTryKNone h _
      cases b with
      | true =>
        unfold stripF
        rw [if_pos rfl, hdm]
        dsimp only
        rw [ih _ hlen hrest]
      | false =>
        unfold stripF
        rw [if_neg Bool.false_ne_true]
        rw [ih _ hlen hrest]

/-! Trimming is the identity on the witness strings. -/

theorem trimLeftJoinRepl (k : Nat) (rest : List Char)
    (hrest : rest.dropWhile isWs = rest) :
    (joinList (List.replicate k uSp) ++ rest).dropWhile isWs =
      joinList (List.replicate k uSp) ++ rest := by
  cases k with
  | zero => simpa [joinList] using hrest
  | succ k =>
    rw [List.replicate_succ]
    rw [show joinList (uSp :: List.replicate k uSp) = uSp ++ joinList (List.replicate k uSp)
        from rfl]
    rw [show (uSp ++ joinList (List.replicate k uSp)) ++ rest =
          'a' :: ("aaaaaaaaaaaaaaaaaa۔ ".toList ++ joinList (List.replicate k uSp) ++ rest)
        by simp [uSp, u20]]
    rw [List.dropWhile_cons_of_neg (by decide)]

theorem trimC7Gen (k : Nat) (tail : List Char) (htail : tail.dropWhile isWs = tail)
    (core : List Char) (hcore : joinList (List.replicate k uSp) ++ tail = core ++ ['۔']) :
    trim (joinList (List.replicate k uSp) ++ tail) =
      joinList (List.replicate k uSp) ++ tail := by
  rw [trimEq, trimLeftJoinRepl k tail htail, hcore,
    trimEndAppendNonWs (by decide) core []]
  rfl

theorem c7Script_decomp :
    c7Script = (joinList (List.replicate 190 uSp) ++ "aaaaaaaaa".toList) ++ ['۔'] := by
  unfold c7Script v10
  rw [List.append_assoc]
  rfl

theorem trim_c7Script : trim c7Script = c7Script := by
  unfold c7Script
  exact trimC7Gen 190 v10 (by decide) (joinList (List.replicate 190 uSp) ++ "aaaaaaaaa".toList)
    (by rw [← c7Script_decomp]; rfl)

theorem c7Script_ne_nil : c7Script ≠ [] := by
  rw [c7Script_decomp]
  simp

theorem extractScript_c7Resp : extractScript c7Resp = c7Script := by
  have hemoji : scanMatch vpsEmoji c7Resp = none := by
    apply scanEmojiNone
    intro c hc
    rcases c7Resp_mem hc with rfl | rfl | rfl | h
    · decide
    · decide
    · decide
    · exact (by decide : ∀ x ∈ "**Vision Point Script**".toList, x ≠ '📝') c h
  have hstars : scanMatch vpsStars c7Resp = some c7Script := rfl
  have hnodash : ∀ c ∈ c7Script, c ≠ '-' := by
    intro c hc
    rcases c7Script_mem hc with rfl | rfl | rfl <;> decide
  unfold extractScript
  rw [hemoji, hstars]
  dsimp only
  rw [upToDashesNoDash hnodash, trim_c7Script, if_neg c7Script_ne_nil]
  have hstrip : stripDashLines c7Script = c7Script := by
    unfold stripDashLines
    exact stripFNoDash _ true (by omega) hnodash
  rw [hstrip]
  exact trim_c7Script

/-! Sentence splitting of the witness script. -/

theorem sentStepU (g : Nat) (tail : List Char) :
    sentSplitF (g + 21) (uSp ++ tail) [] =
      u20 :: sentSplitF g (tail.dropWhile isWs) [] := rfl

theorem sentRun (rest : List Char) (hrest : rest.dropWhile isWs = rest) :
    ∀ (k g : Nat),
      sentSplitF (g + 1 + 21 * k) (joinList (List.replicate k uSp) ++ rest) [] =
        List.replicate k u20 ++ sentSplitF (g + 1) rest [] := by
  intro k
  induction k with
  | zero => intro g; simp [joinList]
  | succ k ih =>
    intro g
    have harith : g + 1 + 21 * (k + 1) = (g + 1 + 21 * k) + 21 := by ring
    have hjoin : joinList (List.replicate (k + 1) uSp) ++ rest =
        uSp ++ (joinList (List.replicate k uSp) ++ rest) := by
      rw [List.replicate_succ]
      simp [joinList, List.append_assoc]
    rw [harith, hjoin, sentStepU, trimLeftJoinRepl k rest hrest, ih g,
      List.replicate_succ]
    rfl

theorem sentSplit_c7Script :
    sentSplit c7Script = List.replicate 190 u20 ++ [v10] := by
  unfold sentSplit
  rw [c7Script_length]
  rw [show (4000 : Nat) + 1 = 10 + 1 + 21 * 190 from by norm_num]
  rw [show c7Script = joinList (List.replicate 190 uSp) ++ v10 from rfl]
  rw [sentRun v10 (by decide) 190 10]
  rfl

/-! The distribution chunking of the witness script. -/

theorem chunkRunNoPush :
    ∀ (k n : Nat) (chunks : List (List Char)) (rest : List (List Char)),
      n + k ≤ 166 →
      chunkTextLoop 3500 (List.replicate k u20 ++ rest)
          (chunks, joinList (List.replicate n uSp)) =
        chunkTextLoop 3500 rest (chunks, joinList (List.replicate (n + k) uSp)) := by
  intro k
  induction k with
  | zero => intro n chunks rest _; rfl
  | succ k ih =>
    intro n chunks rest h
    rw [List.replicate_succ, List.cons_append]
    rw [show chunkTextLoop 3500 (u20 :: (List.replicate k u20 ++ rest))
          (chunks, joinList (List.replicate n uSp)) =
        chunkTextLoop 3500 (List.replicate k u20 ++ rest)
          (chunkTextStep 3500 (chunks, joinList (List.replicate n uSp)) u20) from rfl]
    have hstep : chunkTextStep 3500 (chunks, joinList (List.replicate n uSp)) u20 =
        (chunks, joinList (List.replicate (n + 1) uSp)) := by
      unfold chunkTextStep
      rw [if_neg (by
        rw [joinRepl_length]
        have h20 : u20.length = 20 := by decide
        rw [h20]
        have huSp : uSp.length = 21 := by decide
        rw [huSp]
        omega)]
      dsimp only
      rw [joinReplSnoc]
      rw [show joinList (List.replicate n uSp) ++ uSp =
            joinList (List.replicate n uSp) ++ (u20 ++ [' ']) from rfl]
      rw [List.append_assoc]
    rw [hstep, ih (n + 1) chunks rest (by omega)]
    rw [show n + 1 + k = n + (k + 1) from by omega]

theorem join166_ne_nil : joinList (List.replicate 166 uSp) ≠ [] := by
  rw [List.replicate_succ]
  rw [show joinList (uSp :: List.replicate 165 uSp) =
        uSp ++ joinList (List.replicate 165 uSp) from rfl]
  simp [uSp, u20]

theorem trim_join166 : trim (joinList (List.replicate 166 uSp)) = c7Chunk1 := by
  have hdecomp : joinList (List.replicate 166 uSp) =
      (joinList (List.replicate 165 uSp) ++ "aaaaaaaaaaaaaaaaaaa".toList ++ ['۔']) ++ [' '] := by
    rw [joinReplSnoc]
    rw [show (uSp : List Char) = ("aaaaaaaaaaaaaaaaaaa".toList ++ ['۔']) ++ [' '] from rfl]
    simp [List.append_assoc]
  rw [trimEq]
  rw [show joinList (List.replicate 166 uSp) =
        joinList (List.replicate 166 uSp) ++ [] from by simp]
  rw [trimLeftJoinRepl 166 [] rfl]
  rw [show joinList (List.replicate 166 uSp) ++ [] =
        joinList (List.replicate 166 uSp) from by simp]
  rw [hdecomp]
  rw [trimEndAppendWs (by decide)]
  rw [trimEndAppendNonWs (by decide)]
  rw [show ('۔' :: trimEnd [] : List Char) = ['۔'] from rfl]
  unfold c7Chunk1
  rw [show (u20 : List Char) = "aaaaaaaaaaaaaaaaaaa".toList ++ ['۔'] from rfl]
  rw [List.append_assoc]

theorem trim_finalChunk :
    trim (joinList (List.replicate 24 uSp) ++ (v10 ++ [' '])) = c7Chunk2 := by
  rw [trimEq]
  rw [trimLeftJoinRepl 24 (v10 ++ [' ']) (by decide)]
  rw [show joinList (List.replicate 24 uSp) ++ (v10 ++ [' ']) =
        (joinList (List.replicate 24 uSp) ++ v10) ++ [' '] from by simp]
  rw [trimEndAppendWs (by decide)]
  rw [show joinList (List.replicate 24 uSp) ++ v10 =
        (joinList (List.replicate 24 uSp) ++ "aaaaaaaaa".toList) ++ ['۔'] from by
    rw [show (v10 : List Char) = "aaaaaaaaa".toList ++ ['۔'] from rfl]
    simp [List.append_assoc]]
  rw [trimEndAppendNonWs (by decide)]
  rw [show ('۔' :: trimEnd [] : List Char) = ['۔'] from rfl]
  unfold c7Chunk2
  rw [show (v10 : List Char) = "aaaaaaaaa".toList ++ ['۔'] from rfl]
  simp [List.append_assoc]

theorem c7Chunk2_ne_nil : c7Chunk2 ≠ [] := by
  unfold c7Chunk2
  rw [show (v10 : List Char) = "aaaaaaaaa".toList ++ ['۔'] from rfl]
  simp

theorem chunkText_c7Script : chunkText c7Script 3500 = [c7Chunk1, c7Chunk2] := by
  unfold chunkText
  dsimp only
  rw [sentSplit_c7Script]
  rw [show (190 : Nat) = 166 + 24 from by norm_num, List.replicate_add,
    List.append_assoc]
  rw [show ((([] : List (List Char)), ([] : List Char)) : ChunkState) =
        (([] : List (List Char)), joinList (List.replicate 0 uSp)) from rfl]
  rw [chunkRunNoPush 166 0 [] _ (by omega)]
  rw [show (0 + 166 : Nat) = 166 from by omega]
  rw [show (List.replicate 24 u20 : List (List Char)) = u20 :: List.replicate 23 u20 from rfl,
    List.cons_append]
  rw [show chunkTextLoop 3500 (u20 :: (List.replicate 23 u20 ++ [v10]))
        ([], joinList (List.replicate 166 uSp)) =
      chunkTextLoop 3500 (List.replicate 23 u20 ++ [v10])
        (chunkTextStep 3500 ([], joinList (List.replicate 166 uSp)) u20) from rfl]
  have hpush : chunkTextStep 3500 ([], joinList (List.replicate 166 uSp)) u20 =
      ([c7Chunk1], joinList (List.replicate 1 uSp)) := by
    unfold chunkTextStep
    dsimp only
    rw [if_pos (by
      rw [joinRepl_length]
      rw [show (u20.length : Nat) = 20 from by decide]
      rw [show (uSp.length : Nat) = 21 from by decide]
      omega)]
    rw [if_pos join166_ne_nil]
    dsimp only
    rw [trim_join166]
    rw [show ([] : List Char) ++ u20 ++ [' '] = joinList (List.replicate 1 uSp) from by
      simp [joinList, uSp]]
    rfl
  rw [hpush]
  rw [chunkRunNoPush 23 1 [c7Chunk1] [v10] (by omega)]
  rw [show (1 + 23 : Nat) = 24 from by omega]
  rw [show chunkTextLoop 3500 [v10] ([c7Chunk1], joinList (List.replicate 24 uSp)) =
      chunkTextLoop 3500 []
        (chunkTextStep 3500 ([c7Chunk1], joinList (List.replicate 24 uSp)) v10) from rfl]
  have hlast : chunkTextStep 3500 ([c7Chunk1], joinList (List.replicate 24 uSp)) v10 =
      ([c7Chunk1], joinList (List.replicate 24 uSp) ++ (v10 ++ [' '])) := by
    unfold chunkTextStep
    dsimp only
    rw [if_neg (by
      rw [joinRepl_length]
      rw [show (v10.length : Nat) = 10 from by decide]
      rw [show (uSp.length : Nat) = 21 from by decide]
      omega)]
    dsimp only
    rw [List.append_assoc]
  rw [hlast]
  rw [show chunkTextLoop 3500 []
        ([c7Chunk1], joinList (List.replicate 24 uSp) ++ (v10 ++ [' '])) =
      ([c7Chunk1], joinList (List.replicate 24 uSp) ++ (v10 ++ [' '])) from rfl]
  dsimp only
  rw [trim_finalChunk]
  rw [if_pos c7Chunk2_ne_nil]
  rw [if_neg (by simp)]
  rfl

theorem c7Resp_ne_nil : c7Resp ≠ [] := by
  intro h
  unfold c7Resp at h
  have h2 := (List.append_eq_nil.mp h).1
  revert h2
  decide

/-- Witness for C7: a concrete service success whose extracted script is
the 4000-character `c7Script`, chunking into `c7Chunk1` and `c7Chunk2`;
the deliveries are the heading, the two chunks, and the reaction, in
order. -/
theorem c7_editorial_success_witness :
    processEditorial c7Gen "floods in Punjab".toList 9 =
      [Delivery.text .demoScript (heading "floods in Punjab".toList),
       Delivery.text .demoScript c7Chunk1,
       Delivery.text .demoScript c7Chunk2,
       Delivery.reaction .content 9 '✅'] :=
  c7_editorial_success c7Gen "floods in Punjab".toList 9 c7Resp c7Script c7Chunk1 c7Chunk2
    rfl c7Resp_ne_nil extractScript_c7Resp c7Script_ne_nil c7Script_length chunkText_c7Script

/-! ### C1: the chunker preserves the non-whitespace content -/

theorem nonWsApp (a b : List Char) : nonWs (a ++ b) = nonWs a ++ nonWs b := by
  simp [nonWs]

theorem nonWsRev (l : List Char) : nonWs l.reverse = (nonWs l).reverse := by
  simp [nonWs]

theorem nonWsDropWhile (l : List Char) : nonWs (l.dropWhile isWs) = nonWs l := by
  induction l with
  | nil => rfl
  | cons c t ih =>
    by_cases h : isWs c
    · rw [List.dropWhile_cons_of_pos h, ih]
      simp [nonWs, List.filter_cons, h]
    · rw [List.dropWhile_cons_of_neg (by simp [h])]

theorem nonWsTrimEnd (l : List Char) : nonWs (trimEnd l) = nonWs l := by
  unfold trimEnd
  rw [nonWsRev, nonWsDropWhile, nonWsRev, List.reverse_reverse]

theorem nonWsTrim (l : List Char) : nonWs (trim l) = nonWs l := by
  unfold trim trimLeft
  rw [nonWsTrimEnd, nonWsDropWhile]

theorem nonWsNl2 (l : List Char) : nonWs ('\n' :: '\n' :: l) = nonWs l := rfl

theorem afterLastNlNonWs : ∀ l r, afterLastNl l = some r → nonWs l = nonWs r := by
  intro l
  induction l with
  | nil => intro r h; simp [afterLastNl] at h
  | cons c t ih =>
    intro r h
    simp only [afterLastNl] at h
    by_cases hw : isWs c
    · simp [hw] at h
      have hcw : nonWs (c :: t) = nonWs t := by
        simp [nonWs, List.filter_cons, hw]
      cases ht : afterLastNl t with
      | some r2 =>
        rw [ht] at h
        cases h
        rw [hcw]
        exact ih _ ht
      | none =>
        rw [ht] at h
        by_cases hn : c = '\n'
        · simp [hn] at h; cases h; rw [hcw]
        · simp [hn] at h
    · simp [hw] at h

theorem paraSepNonWs : ∀ l r, paraSepMatch l = some r → nonWs l = nonWs r := by
  intro l r h
  match l with
  | [] => simp [paraSepMatch] at h
  | c :: t =>
    by_cases hc : c = '\n'
    · subst hc
      simp only [paraSepMatch] at h
      rw [show nonWs ('\n' :: t) = nonWs t from rfl]
      exact afterLastNlNonWs _ _ h
    · cases c <;> simp_all [paraSepMatch]

theorem paraSplitFNonWs :
    ∀ f (l acc : List Char), l.length < f →
      nonWs (joinList (paraSplitF f l acc)) = nonWs acc.reverse ++ nonWs l := by
  intro f
  induction f with
  | zero => intro l acc hf; omega
  | succ f ih =>
    intro l acc hf
    match l with
    | [] => simp [paraSplitF, joinList, nonWs]
    | c :: t =>
      simp only [paraSplitF]
      cases hm : paraSepMatch (c :: t) with
      | some r =>
        have hr := paraSepMatch_length _ _ hm
        simp only [List.length_cons] at hf hr
        dsimp only
        rw [show joinList (acc.reverse :: paraSplitF f r []) =
              acc.reverse ++ joinList (paraSplitF f r []) from rfl]
        rw [nonWsApp, ih r [] (by omega), paraSepNonWs _ _ hm]
        simp [nonWs]
      | none =>
        simp only [List.length_cons] at hf
        dsimp only
        rw [ih t (c :: acc) (by omega)]
        by_cases hcw : isWs c <;>
          simp [nonWs, List.filter_append, List.filter_cons, List.reverse_cons,
            List.append_assoc, hcw]

theorem paraSplitNonWs (s : List Char) :
    nonWs (joinList (paraSplit s)) = nonWs s := by
  unfold paraSplit
  rw [paraSplitFNonWs (s.length + 1) s [] (by omega)]
  simp [nonWs]

theorem sentencesGoJoin : ∀ (l acc : List Char),
    joinList (sentencesGo l acc) = acc.reverse ++ l := by
  intro l
  induction l with
  | nil => intro acc; simp [sentencesGo, joinList]
  | cons c t ih =>
    intro acc
    by_cases h : isTerm c
    · simp only [sentencesGo, if_pos h]
      rw [show joinList ((acc.reverse ++ [c]) :: sentencesGo t []) =
            (acc.reverse ++ [c]) ++ joinList (sentencesGo t []) from rfl]
      rw [ih []]
      simp
    · simp only [sentencesGo, if_neg h]
      rw [ih (c :: acc)]
      simp

theorem sentencesJoin (s : List Char) : joinList (sentences s) = s := by
  unfold sentences
  rw [sentencesGoJoin]
  simp

theorem findBreakContent : ∀ (us : List (List Char)) (acc b r : List Char),
    findBreak us acc = some (b, r) → b ++ r = acc ++ joinList us := by
  intro us
  induction us with
  | nil => intro acc b r h; simp [findBreak] at h
  | cons u us ih =>
    intro acc b r h
    rw [show findBreak (u :: us) acc =
          (if minChunkSize ≤ (acc ++ u).length ∧ (acc ++ u).length ≤ maxChunkSize then
            some (acc ++ u, joinList us)
          else findBreak us (acc ++ u)) from rfl] at h
    split_ifs at h with hcond
    · injection h with h2
      injection h2 with hb hr
      subst hb
      subst hr
      rw [show joinList (u :: us) = u ++ joinList us from rfl]
      simp
    · rw [ih _ _ _ h]
      rw [show joinList (u :: us) = u ++ joinList us from rfl]
      simp

theorem paraAccumContent (st : ChunkState) (p : List Char) :
    nonWs (joinList (paraAccum st p).1 ++ (paraAccum st p).2) =
      nonWs (joinList st.1 ++ st.2) ++ nonWs p := by
  obtain ⟨chunks, cur⟩ := st
  unfold paraAccum
  dsimp only
  split_ifs with h1 h2 h3
  · simp [nonWsApp, nonWsTrim, joinList_append, joinList, List.append_assoc]
  · simp [nonWsApp, nonWsNl2, List.append_assoc]
  · have hc : cur = [] := List.length_eq_zero.mp h3
    subst hc
    simp [nonWsApp, nonWs]
  · simp [nonWsApp, nonWsNl2, List.append_assoc]

theorem paraBoundaryContent (st1 : ChunkState) (hm : Bool) :
    nonWs (joinList (paraBoundary st1 hm).1 ++ (paraBoundary st1 hm).2) =
      nonWs (joinList st1.1 ++ st1.2) := by
  obtain ⟨chunks, cur⟩ := st1
  unfold paraBoundary
  dsimp only
  split_ifs with h1 h2 h3
  · simp [nonWsApp, nonWsTrim, joinList_append, joinList, List.append_assoc]
  · cases hfb : findBreak (sentences cur) [] with
    | some br =>
      obtain ⟨b, r⟩ := br
      dsimp only
      have hbr : b ++ r = cur := by
        have hck := findBreakContent _ _ _ _ hfb
        rw [sentencesJoin] at hck
        simpa using hck
      have key : nonWs (trim b ++ trim r) = nonWs cur := by
        rw [nonWsApp, nonWsTrim, nonWsTrim, ← nonWsApp, hbr]
      rw [joinList_append, show joinList [trim b] = trim b ++ [] from rfl,
        List.append_nil, List.append_assoc, nonWsApp, key, ← nonWsApp]
    | none => rfl
  · rfl
  · rfl

theorem paraStepContent (st : ChunkState) (pRaw : List Char) (hm : Bool) :
    nonWs (joinList (paraStep st pRaw hm).1 ++ (paraStep st pRaw hm).2) =
      nonWs (joinList st.1 ++ st.2) ++ nonWs pRaw := by
  unfold paraStep
  dsimp only
  by_cases hp : trim pRaw = []
  · rw [if_pos hp]
    have h0 : nonWs pRaw = [] := by rw [← nonWsTrim, hp]; rfl
    simp [h0]
  · rw [if_neg hp]
    rw [paraBoundaryContent, paraAccumContent, nonWsTrim]

theorem paraLoopContent : ∀ (ps : List (List Char)) (st : ChunkState),
    nonWs (joinList (paraLoop ps st).1 ++ (paraLoop ps st).2) =
      nonWs (joinList st.1 ++ st.2) ++ nonWs (joinList ps) := by
  intro ps
  induction ps with
  | nil => intro st; simp [paraLoop, joinList, nonWs]
  | cons pRaw rest ih =>
    intro st
    rw [show paraLoop (pRaw :: rest) st =
          paraLoop rest (paraStep st pRaw (rest ≠ [])) from rfl]
    rw [ih, paraStepContent]
    rw [show joinList (pRaw :: rest) = pRaw ++ joinList rest from rfl]
    simp [nonWsApp, List.append_assoc]

theorem sentStepContent (st : ChunkState) (u : List Char) :
    nonWs (joinList (sentStep st u).1 ++ (sentStep st u).2) =
      nonWs (joinList st.1 ++ st.2) ++ nonWs u := by
  obtain ⟨chunks, cur⟩ := st
  unfold sentStep
  dsimp only
  split_ifs with h1 h2 h3 <;>
    simp [nonWsApp, nonWsTrim, joinList_append, joinList, List.append_assoc]

theorem sentLoopContent : ∀ (us : List (List Char)) (st : ChunkState),
    nonWs (joinList (sentLoop us st).1 ++ (sentLoop us st).2) =
      nonWs (joinList st.1 ++ st.2) ++ nonWs (joinList us) := by
  intro us
  induction us with
  | nil => intro st; simp [sentLoop, joinList, nonWs]
  | cons u rest ih =>
    intro st
    rw [show sentLoop (u :: rest) st = sentLoop rest (sentStep st u) from rfl]
    rw [ih, sentStepContent]
    rw [show joinList (u :: rest) = u ++ joinList rest from rfl]
    simp [nonWsApp, List.append_assoc]

/-- C1: the chunker loses no non-whitespace content: the concatenation of
the chunks, in order, has exactly the non-whitespace characters of the
input, in input order; and the output is empty only on empty input. -/
theorem c1_chunker_lossless (s : List Char) :
    nonWs (joinList (splitScriptIntoChunks s)) = nonWs s ∧
      (splitScriptIntoChunks s = [] ↔ s = []) := by
  unfold splitScriptIntoChunks
  by_cases hlen : s.length = 0
  · have hs : s = [] := List.length_eq_zero.mp hlen
    subst hs
    simp [joinList, nonWs]
  · rw [if_neg hlen]
    dsimp only
    have hmain : nonWs (joinList (paraLoop (paraSplit s) ([], [])).1 ++
        (paraLoop (paraSplit s) ([], [])).2) = nonWs s := by
      rw [paraLoopContent, paraSplitNonWs]
      simp [joinList, nonWs]
    have hfall : nonWs (joinList (sentLoop (sentences s) ([], [])).1 ++
        (sentLoop (sentences s) ([], [])).2) = nonWs s := by
      rw [sentLoopContent, sentencesJoin]
      simp [joinList, nonWs]
    have hstage : ∀ t : ChunkState,
        nonWs (joinList (if trim t.2 ≠ [] then t.1 ++ [trim t.2] else t.1)) =
          nonWs (joinList t.1 ++ t.2) := by
      intro t
      by_cases h : trim t.2 = []
      · rw [if_neg (not_not_intro h)]
        have h0 : nonWs t.2 = [] := by rw [← nonWsTrim, h]; rfl
        rw [nonWsApp, h0, List.append_nil]
      · rw [if_pos h, joinList_append,
          show joinList [trim t.2] = trim t.2 ++ [] from rfl, List.append_nil,
          nonWsApp, nonWsTrim, ← nonWsApp]
    set st := paraLoop (paraSplit s) ([], []) with hst
    set st2 := sentLoop (sentences s) ([], []) with hst2
    constructor
    · by_cases hcond : (if trim st.2 ≠ [] then st.1 ++ [trim st.2] else st.1) = [] ∧
          maxChunkSize < s.length
      · rw [if_pos hcond]
        by_cases hE : (if trim st2.2 ≠ [] then st2.1 ++ [trim st2.2] else st2.1) = []
        · rw [if_pos hE]
          simp [joinList, nonWs]
        · rw [if_neg hE]
          rw [hstage st2, hfall]
      · rw [if_neg hcond]
        by_cases hE : (if trim st.2 ≠ [] then st.1 ++ [trim st.2] else st.1) = []
        · rw [if_pos hE]
          simp [joinList, nonWs]
        · rw [if_neg hE]
          rw [hstage st, hmain]
    · constructor
      · intro h
        exfalso
        by_cases hcond : (if trim st.2 ≠ [] then st.1 ++ [trim st.2] else st.1) = [] ∧
            maxChunkSize < s.length
        · rw [if_pos hcond] at h
          by_cases hE : (if trim st2.2 ≠ [] then st2.1 ++ [trim st2.2] else st2.1) = []
          · rw [if_pos hE] at h; simp at h
          · rw [if_neg hE] at h; exact hE h
        · rw [if_neg hcond] at h
          by_cases hE : (if trim st.2 ≠ [] then st.1 ++ [trim st.2] else st.1) = []
          · rw [if_pos hE] at h; simp at h
          · rw [if_neg hE] at h; exact hE h
      · intro h
        subst h
        simp at hlen


/-! ### C2: the amended chunk-size bound -/

theorem trimLenLe (l : List Char) : (trim l).length ≤ l.length := by
  unfold trim trimLeft trimEnd
  calc ((l.dropWhile isWs).reverse.dropWhile isWs).reverse.length
      = ((l.dropWhile isWs).reverse.dropWhile isWs).length := by simp
    _ ≤ (l.dropWhile isWs).reverse.length := dropWhileLenLe _ _
    _ = (l.dropWhile isWs).length := by simp
    _ ≤ l.length := dropWhileLenLe _ _

theorem maxLenMem {x : List Char} : ∀ {L : List (List Char)}, x ∈ L → x.length ≤ maxLen L := by
  intro L
  induction L with
  | nil => intro h; cases h
  | cons y ys ih =>
    intro h
    rw [show maxLen (y :: ys) = max y.length (maxLen ys) from rfl]
    rcases List.mem_cons.mp h with h | h
    · subst h; exact le_max_left _ _
    · exact le_trans (ih h) (le_max_right _ _)

theorem findBreakLen : ∀ (us : List (List Char)) (acc b r : List Char),
    findBreak us acc = some (b, r) → b.length ≤ maxChunkSize := by
  intro us
  induction us with
  | nil => intro acc b r h; simp [findBreak] at h
  | cons u us ih =>
    intro acc b r h
    rw [show findBreak (u :: us) acc =
          (if minChunkSize ≤ (acc ++ u).length ∧ (acc ++ u).length ≤ maxChunkSize then
            some (acc ++ u, joinList us)
          else findBreak us (acc ++ u)) from rfl] at h
    split_ifs at h with hcond
    · injection h with h2
      injection h2 with hb hr
      subst hb
      exact hcond.2
    · exact ih _ _ _ h

theorem paraAccumBound (U : Nat) (st : ChunkState) (p : List Char)
    (hch : ∀ c ∈ st.1, c.length ≤ maxChunkSize + 2 + U)
    (hcur : st.2.length ≤ maxChunkSize + 2 + U)
    (hp : p.length ≤ U) :
    (∀ c ∈ (paraAccum st p).1, c.length ≤ maxChunkSize + 2 + U) ∧
      (paraAccum st p).2.length ≤ maxChunkSize + 2 + U := by
  have e1 : minChunkSize = 1050 := rfl
  have e3 : maxChunkSize = 1650 := rfl
  obtain ⟨chunks, cur⟩ := st
  dsimp only at hch hcur
  unfold paraAccum
  dsimp only
  split_ifs with h1 h2 h3
  · refine ⟨?_, by dsimp only; omega⟩
    intro c hc
    rcases List.mem_append.mp hc with hc | hc
    · exact hch c hc
    · rw [List.mem_singleton] at hc
      subst hc
      exact le_trans (trimLenLe cur) hcur
  · refine ⟨hch, ?_⟩
    dsimp only
    rw [List.length_append]
    simp only [List.length_cons]
    omega
  · exact ⟨hch, by dsimp only; omega⟩
  · refine ⟨hch, ?_⟩
    dsimp only
    rw [List.length_append]
    simp only [List.length_cons]
    push_neg at h1
    rcases Nat.eq_zero_or_pos cur.length with hz | hz
    · exact absurd hz h3
    · have := h1 hz
      omega

theorem paraBoundaryBound (U : Nat) (st1 : ChunkState) (hm : Bool)
    (hch : ∀ c ∈ st1.1, c.length ≤ maxChunkSize + 2 + U)
    (hcur : st1.2.length ≤ maxChunkSize + 2 + U) :
    (∀ c ∈ (paraBoundary st1 hm).1, c.length ≤ maxChunkSize + 2 + U) ∧
      (paraBoundary st1 hm).2.length ≤ maxChunkSize + 2 + U := by
  obtain ⟨chunks, cur⟩ := st1
  dsimp only at hch hcur
  unfold paraBoundary
  dsimp only
  split_ifs with h1 h2 h3
  · refine ⟨?_, by simp⟩
    intro c hc
    rcases List.mem_append.mp hc with hc | hc
    · exact hch c hc
    · rw [List.mem_singleton] at hc
      subst hc
      exact le_trans (trimLenLe cur) hcur
  · cases hfb : findBreak (sentences cur) [] with
    | some br =>
      obtain ⟨b, r⟩ := br
      dsimp only
      have hbr : b ++ r = cur := by
        have hck := findBreakContent _ _ _ _ hfb
        rw [sentencesJoin] at hck
        simpa using hck
      have hrlen : r.length ≤ cur.length := by
        have : (b ++ r).length = cur.length := by rw [hbr]
        rw [List.length_append] at this
        omega
      refine ⟨?_, ?_⟩
      · intro c hc
        rcases List.mem_append.mp hc with hc | hc
        · exact hch c hc
        · rw [List.mem_singleton] at hc
          subst hc
          have := findBreakLen _ _ _ _ hfb
          have := trimLenLe b
          omega
      · exact le_trans (trimLenLe r) (le_trans hrlen hcur)
    | none => exact ⟨hch, hcur⟩
  · exact ⟨hch, hcur⟩
  · exact ⟨hch, hcur⟩

theorem paraStepBound (U : Nat) (st : ChunkState) (pRaw : List Char) (hm : Bool)
    (hch : ∀ c ∈ st.1, c.length ≤ maxChunkSize + 2 + U)
    (hcur : st.2.length ≤ maxChunkSize + 2 + U)
    (hp : (trim pRaw).length ≤ U) :
    (∀ c ∈ (paraStep st pRaw hm).1, c.length ≤ maxChunkSize + 2 + U) ∧
      (paraStep st pRaw hm).2.length ≤ maxChunkSize + 2 + U := by
  unfold paraStep
  dsimp only
  by_cases hq : trim pRaw = []
  · rw [if_pos hq]
    exact ⟨hch, hcur⟩
  · rw [if_neg hq]
    have h1 := paraAccumBound U st (trim pRaw) hch hcur hp
    exact paraBoundaryBound U _ hm h1.1 h1.2

theorem paraLoopBound (U : Nat) : ∀ (ps : List (List Char)) (st : ChunkState),
    (∀ p ∈ ps, (trim p).length ≤ U) →
    (∀ c ∈ st.1, c.length ≤ maxChunkSize + 2 + U) →
    st.2.length ≤ maxChunkSize + 2 + U →
    (∀ c ∈ (paraLoop ps st).1, c.length ≤ maxChunkSize + 2 + U) ∧
      (paraLoop ps st).2.length ≤ maxChunkSize + 2 + U := by
  intro ps
  induction ps with
  | nil => intro st _ hch hcur; exact ⟨hch, hcur⟩
  | cons p rest ih =>
    intro st hp hch hcur
    rw [show paraLoop (p :: rest) st = paraLoop rest (paraStep st p (rest ≠ [])) from rfl]
    have hs := paraStepBound U st p (rest ≠ []) hch hcur (hp p (by simp))
    exact ih _ (fun q hq => hp q (by simp [hq])) hs.1 hs.2

theorem sentStepBound (U : Nat) (st : ChunkState) (u : List Char)
    (hch : ∀ c ∈ st.1, c.length ≤ maxChunkSize + 2 + U)
    (hcur : st.2.length < targetChunkSize)
    (hu : u.length ≤ U) :
    (∀ c ∈ (sentStep st u).1, c.length ≤ maxChunkSize + 2 + U) ∧
      (sentStep st u).2.length < targetChunkSize := by
  have e2 : targetChunkSize = 1200 := rfl
  have e3 : maxChunkSize = 1650 := rfl
  obtain ⟨chunks, cur⟩ := st
  dsimp only at hch hcur
  unfold sentStep
  dsimp only
  split_ifs with h1 h2 h3
  · dsimp only at h2 ⊢
    refine ⟨?_, by simp [e2]⟩
    intro c hc
    rcases List.mem_append.mp hc with hc | hc
    · rcases List.mem_append.mp hc with hc | hc
      · exact hch c hc
      · rw [List.mem_singleton] at hc
        subst hc
        have := trimLenLe cur
        omega
    · rw [List.mem_singleton] at hc
      subst hc
      have := trimLenLe u
      omega
  · dsimp only at h2 ⊢
    refine ⟨?_, by omega⟩
    intro c hc
    rcases List.mem_append.mp hc with hc | hc
    · exact hch c hc
    · rw [List.mem_singleton] at hc
      subst hc
      have := trimLenLe cur
      omega
  · dsimp only at h3 ⊢
    refine ⟨?_, by simp [e2]⟩
    intro c hc
    rcases List.mem_append.mp hc with hc | hc
    · exact hch c hc
    · rw [List.mem_singleton] at hc
      subst hc
      have h4 := trimLenLe (cur ++ u)
      rw [List.length_append] at h4
      omega
  · dsimp only at h3 ⊢
    refine ⟨hch, ?_⟩
    rw [List.length_append] at h3 ⊢
    omega

theorem sentLoopBound (U : Nat) : ∀ (us : List (List Char)) (st : ChunkState),
    (∀ u ∈ us, u.length ≤ U) →
    (∀ c ∈ st.1, c.length ≤ maxChunkSize + 2 + U) →
    st.2.length < targetChunkSize →
    (∀ c ∈ (sentLoop us st).1, c.length ≤ maxChunkSize + 2 + U) ∧
      (sentLoop us st).2.length < targetChunkSize := by
  intro us
  induction us with
  | nil => intro st _ hch hcur; exact ⟨hch, hcur⟩
  | cons u rest ih =>
    intro st hu hch hcur
    rw [show sentLoop (u :: rest) st = sentLoop rest (sentStep st u) from rfl]
    have hs := sentStepBound U st u hch hcur (hu u (by simp))
    exact ih _ (fun q hq => hu q (by simp [hq])) hs.1 hs.2

theorem sentStepNil (st : ChunkState) (u : List Char) (h : (sentStep st u).1 = []) :
    st.1 = [] ∧ (sentStep st u).2 = st.2 ++ u := by
  obtain ⟨chunks, cur⟩ := st
  unfold sentStep at h ⊢
  dsimp only at h ⊢
  split_ifs at h ⊢ with h1 h2 h3
  · simp at h
  · simp at h
  · simp at h
  · exact ⟨h, rfl⟩

theorem sentLoopNil : ∀ (us : List (List Char)) (st : ChunkState),
    (sentLoop us st).1 = [] → st.1 = [] ∧ (sentLoop us st).2 = st.2 ++ joinList us := by
  intro us
  induction us with
  | nil => intro st h; exact ⟨h, by simp [sentLoop, joinList]⟩
  | cons u rest ih =>
    intro st h
    rw [show sentLoop (u :: rest) st = sentLoop rest (sentStep st u) from rfl] at h ⊢
    obtain ⟨h1, h2⟩ := ih _ h
    obtain ⟨h3, h4⟩ := sentStepNil st u h1
    refine ⟨h3, ?_⟩
    rw [h2, h4, show joinList (u :: rest) = u ++ joinList rest from rfl, List.append_assoc]

/-- C2 (amended): every chunk the TTS chunker produces has length at most
`maxChunkSize + 2 + unitMax s`: the maximum size plus the two separator
characters the boundary check does not count plus the length of the
longest unsplittable unit of the input. -/
theorem c2_chunk_bound (s c : List Char) (hc : c ∈ splitScriptIntoChunks s) :
    c.length ≤ maxChunkSize + 2 + unitMax s := by
  have e2 : targetChunkSize = 1200 := rfl
  have e3 : maxChunkSize = 1650 := rfl
  unfold splitScriptIntoChunks at hc
  by_cases hlen : s.length = 0
  · rw [if_pos hlen] at hc
    simp at hc
  · rw [if_neg hlen] at hc
    dsimp only at hc
    have hP : ∀ p ∈ paraSplit s, (trim p).length ≤ unitMax s := by
      intro p hp
      unfold unitMax
      exact le_trans (maxLenMem (List.mem_map_of_mem _ hp)) (le_max_left _ _)
    have hS : ∀ u ∈ sentences s, u.length ≤ unitMax s := by
      intro u hu
      unfold unitMax
      exact le_trans (maxLenMem hu) (le_max_right _ _)
    have hmain := paraLoopBound (unitMax s) (paraSplit s) ([], []) hP
      (by intro x hx; simp at hx) (by simp)
    have hfall := sentLoopBound (unitMax s) (sentences s) ([], []) hS
      (by intro x hx; simp at hx) (by simp [e2])
    set st := paraLoop (paraSplit s) ([], []) with hst
    set st2 := sentLoop (sentences s) ([], []) with hst2
    have hC1 : ∀ x ∈ (if trim st.2 ≠ [] then st.1 ++ [trim st.2] else st.1),
        x.length ≤ maxChunkSize + 2 + unitMax s := by
      intro x hx
      by_cases ht : trim st.2 = []
      · rw [if_neg (not_not_intro ht)] at hx
        exact hmain.1 x hx
      · rw [if_pos ht] at hx
        rcases List.mem_append.mp hx with hx | hx
        · exact hmain.1 x hx
        · rw [List.mem_singleton] at hx
          subst hx
          exact le_trans (trimLenLe _) hmain.2
    have hC2 : ∀ x ∈ (if trim st2.2 ≠ [] then st2.1 ++ [trim st2.2] else st2.1),
        x.length ≤ maxChunkSize + 2 + unitMax s := by
      intro x hx
      by_cases ht : trim st2.2 = []
      · rw [if_neg (not_not_intro ht)] at hx
        exact hfall.1 x hx
      · rw [if_pos ht] at hx
        rcases List.mem_append.mp hx with hx | hx
        · exact hfall.1 x hx
        · rw [List.mem_singleton] at hx
          subst hx
          have h5 := trimLenLe st2.2
          have h6 := hfall.2
          omega
    by_cases hcond : (if trim st.2 ≠ [] then st.1 ++ [trim st.2] else st.1) = [] ∧
        maxChunkSize < s.length
    · rw [if_pos hcond] at hc
      by_cases hE : (if trim st2.2 ≠ [] then st2.1 ++ [trim st2.2] else st2.1) = []
      · exfalso
        have hnil : st2.1 = [] := by
          by_cases ht : trim st2.2 = []
          · rw [if_neg (not_not_intro ht)] at hE
            exact hE
          · rw [if_pos ht] at hE
            exact absurd hE (by simp)
        rw [hst2] at hnil
        obtain ⟨_, hbuf⟩ := sentLoopNil (sentences s) ([], []) hnil
        rw [sentencesJoin] at hbuf
        have h7 := hfall.2
        rw [hst2, hbuf] at h7
        simp at h7
        have h8 := hcond.2
        omega
      · rw [if_neg hE] at hc
        exact hC2 c hc
    · rw [if_neg hcond] at hc
      by_cases hE : (if trim st.2 ≠ [] then st.1 ++ [trim st.2] else st.1) = []
      · rw [if_pos hE] at hc
        rw [List.mem_singleton] at hc
        have h9 : ¬ maxChunkSize < s.length := fun hx => hcond ⟨hE, hx⟩
        rw [hc]
        omega
      · rw [if_neg hE] at hc
        exact hC1 c hc

/-- Witness for the amended C2 bound at a concrete input. -/
theorem c2_chunk_bound_witness :
    "ab".toList ∈ splitScriptIntoChunks "ab".toList ∧
      "ab".toList.length ≤ maxChunkSize + 2 + unitMax "ab".toList :=
  ⟨by decide, c2_chunk_bound "ab".toList "ab".toList (by decide)⟩

end VP
